import Mathlib

/-!
# git-pushup: the push / pull / check-rules retry loop

A shallow embedding of `git.go` and `pushup.go`.

* Go strings and byte slices are Lean `String`s (valid UTF-8 only); lengths that
  the Go code measures in bytes are measured with `Char.utf8Size`.
* The external `git` binary is a function from the subprocesses run so far and
  the current call to the captured output and an optional error, so that every
  behaviour of git is an instance; every spawned subprocess is appended to a
  trace together with its result.
* `log.Printf` lines are not modelled: they only write to standard error.
-/

namespace GitPushup

/-! ## The subprocess boundary (`git.go`) -/

/-- The Go struct `git`: the state/flags for running git. -/
structure git where
  gitDir : String
  workTree : String
deriving DecidableEq, Repr

/-- The two results of `exec.Cmd.Output`: captured standard output and an error. -/
structure Output where
  out : String
  err : Option String
deriving DecidableEq, Repr

/-- One spawned `git` subprocess: the receiver (it decides `GIT_DIR` and the
working directory in `wdo`), whether standard error is discarded (`sdo`) or
forwarded (`do`), and the argument vector. -/
structure Call where
  repo : git
  quiet : Bool
  args : List String
deriving DecidableEq, Repr

/-- A finished subprocess: the call and what it returned. -/
structure Event where
  call : Call
  result : Output
deriving DecidableEq, Repr

/-- The subprocesses spawned so far with their results, oldest first. -/
abbrev Trace := List Event

/-- The behaviour of the external git binary: what a call returns, which may
depend on everything that ran before. -/
abbrev Git := Trace → Call → Output

/-- Errors that `run` can return. -/
inductive Error where
  /-- The error value of `fmt.Errorf("need at least one ignore pattern")`. -/
  | needPattern
  /-- An error returned by a git subprocess. -/
  | exec (msg : String)
  /-- An error returned by `ignore.CompileIgnoreLines`. -/
  | compile (msg : String)
  /-- The error value of `fmt.Errorf("%q doesn't match ignore patterns %q", f, p.ignoreFiles)`. -/
  | noMatch (f : String) (patterns : List String)
  /-- The value `bufio.ErrTooLong`, the only error `scanner.Err()` reports on an in-memory reader. -/
  | tooLong
  /-- The error value of `fmt.Errorf("giving up after %d retries", p.retries)`. -/
  | givingUp (retries : Int)
deriving DecidableEq, Repr

/-- The method `wdo`: run one git subprocess and return its output. -/
def git.wdo (g : git) (env : Git) (quiet : Bool) (arg : List String) (tr : Trace) :
    Output × Trace :=
  (env tr ⟨g, quiet, arg⟩, tr ++ [⟨⟨g, quiet, arg⟩, env tr ⟨g, quiet, arg⟩⟩])

/-- The method `do`: `wdo` with standard error forwarded. -/
def git.do_ (g : git) (env : Git) (arg : List String) (tr : Trace) : Output × Trace :=
  g.wdo env false arg tr

/-- The method `sdo`: like `do` but silent on standard error. -/
def git.sdo (g : git) (env : Git) (arg : List String) (tr : Trace) : Output × Trace :=
  g.wdo env true arg tr

/-- The predicate `unicode.IsSpace`. -/
def isSpace (c : Char) : Bool :=
  c = '\t' || c = '\n' || c.toNat = 0x0B || c.toNat = 0x0C || c = '\r' || c = ' ' ||
  c.toNat = 0x85 || c.toNat = 0xA0 || c.toNat = 0x1680 ||
  (0x2000 ≤ c.toNat && c.toNat ≤ 0x200A) ||
  c.toNat = 0x2028 || c.toNat = 0x2029 || c.toNat = 0x202F || c.toNat = 0x205F ||
  c.toNat = 0x3000

/-- The function `strings.TrimSpace`: drop leading and trailing white space. -/
def TrimSpace (s : String) : String :=
  String.mk ((s.data.dropWhile isSpace).reverse.dropWhile isSpace).reverse

/-- The method `revParse`: resolve a reference and trim the output. -/
def git.revParse (g : git) (env : Git) (r : String) (tr : Trace) :
    Except Error String × Trace :=
  match g.do_ env ["rev-parse", r] tr with
  | (⟨_, some e⟩, tr1) => (Except.error (Error.exec e), tr1)
  | (⟨b, none⟩, tr1) => (Except.ok (TrimSpace b), tr1)

/-! ## The rule check (`pushup.go`) -/

/-- The Go struct `pushup`: all the input parameters of the tool. `git` is
embedded. `retries` is a Go `int` and the flag accepts a negative value; the
loop counter of `run` never passes `retries`, so the width of `int` plays no
part. -/
structure pushup extends git where
  ignoreFiles : List String
  retries : Int
  rebase : Bool
  verbose : Bool
  dryRun : Bool
deriving DecidableEq, Repr

/-- The compiled matcher: the method `MatchesPath` of the value that
`ignore.CompileIgnoreLines` returns. -/
abbrev Matcher := String → Bool

/-- The function `ignore.CompileIgnoreLines` of the go-gitignore library, a parameter of `run`. -/
abbrev Compile := List String → Except String Matcher

/-- The constant `bufio.MaxScanTokenSize`, the size beyond which the buffer of
a `bufio.Scanner` made by `bufio.NewScanner` does not grow. -/
def MaxScanTokenSize : Nat := 64 * 1024

/-- Length in bytes of the UTF-8 encoding. -/
def byteLen (l : List Char) : Nat := (l.map Char.utf8Size).sum

/-- The lines `bufio.ScanLines` cuts a byte slice into, before the carriage return
is dropped: each line ends at a newline or at the end of input, and an empty
last line is no line. -/
def rawLines : List Char → List (List Char)
  | [] => []
  | c :: cs =>
    if c = '\n' then [] :: rawLines cs
    else
      match rawLines cs with
      | [] => [[c]]
      | l :: ls => (c :: l) :: ls

/-- The helper `dropCR` of `bufio`: drop one trailing carriage return. -/
def dropCR (l : List Char) : List Char :=
  if l.getLast? = some '\r' then l.dropLast else l

/-- The scanner loop of `checkRules` over the lines of the diff output,
`for scanner.Scan() { ... }` followed by `scanner.Err()`. `Scan` hands out the
lines in order. When the buffer is full, at `MaxScanTokenSize` bytes, and holds
neither a newline nor the end of the input, `Scan` returns false and `Err`
returns `bufio.ErrTooLong`: that is a line of `MaxScanTokenSize` bytes or more,
and the lines before it have been handed out. The loop body returns at the
first path the matcher rejects. -/
def scanLoop (m : Matcher) (patterns : List String) : List (List Char) → Option Error
  | [] => none
  | l :: ls =>
    if MaxScanTokenSize ≤ byteLen l then some Error.tooLong
    else if !m (String.mk (dropCR l)) then some (Error.noMatch (String.mk (dropCR l)) patterns)
    else scanLoop m patterns ls

/-- The method `checkRules`: an error if at least one changed file doesn't match
one of the `ignoreFiles` patterns. -/
def pushup.checkRules (p : pushup) (env : Git) (compile : Compile) (before after : String)
    (tr : Trace) : Option Error × Trace :=
  match p.togit.do_ env ["diff", "--name-only", before ++ ".." ++ after] tr with
  | (⟨_, some e⟩, tr1) => (some (Error.exec e), tr1)
  | (⟨n, none⟩, tr1) =>
    match compile p.ignoreFiles with
    | Except.error e => (some (Error.compile e), tr1)
    | Except.ok m => (scanLoop m p.ignoreFiles (rawLines n.data), tr1)

/-! ## The retry loop (`pushup.go`) -/

/-- The part of the loop body of `run` after the push: `rev-parse HEAD`, the
pull, `rev-parse HEAD` again, the rule check, and the dry-run exit. `none`
means the body ran to its end and the loop goes on, `some r` means `run`
returns `r` (`some none` is a nil error). -/
def pushup.pullAndCheck (p : pushup) (env : Git) (compile : Compile) (tr : Trace) :
    Option (Option Error) × Trace :=
  match p.togit.revParse env "HEAD" tr with
  | (Except.error e, tr2) => (some (some e), tr2)
  | (Except.ok before, tr2) =>
    match p.togit.sdo env ["pull", "--rebase"] tr2 with
    | (⟨_, some e⟩, tr3) => (some (some (Error.exec e)), tr3)
    | (⟨_, none⟩, tr3) =>
      match p.togit.revParse env "HEAD" tr3 with
      | (Except.error e, tr4) => (some (some e), tr4)
      | (Except.ok after, tr4) =>
        match p.checkRules env compile before after tr4 with
        | (some e, tr5) => (some (some e), tr5)
        | (none, tr5) => if p.dryRun then (some none, tr5) else (none, tr5)

/-- The body of the `for` loop of `run`, from the state in which an iteration
starts: the push, skipped under dry-run, ends `run` with nil when it succeeds;
otherwise the body goes on with the pull and the check. -/
def pushup.attempt (p : pushup) (env : Git) (compile : Compile) (tr : Trace) :
    Option (Option Error) × Trace :=
  if !p.dryRun then
    match p.togit.sdo env ["push", "--porcelain"] tr with
    | (⟨_, none⟩, tr1) => (some none, tr1)
    | (⟨_, some _⟩, tr1) => p.pullAndCheck env compile tr1
  else p.pullAndCheck env compile tr

/-- The `for i := 0; i < p.retries; i++` loop of `run` with `k` iterations left;
the body reads neither `i` nor writes `p.retries`, so only the number of
iterations left matters. -/
def pushup.loop (p : pushup) (env : Git) (compile : Compile) : Nat → Trace → Option Error × Trace
  | 0, tr => (some (Error.givingUp p.retries), tr)
  | k + 1, tr =>
    match p.attempt env compile tr with
    | (some r, tr1) => (r, tr1)
    | (none, tr1) => pushup.loop p env compile k tr1

/-- The method `run`, the main entrypoint: the returned error (`none` is nil)
and the git subprocesses spawned, in order. -/
def pushup.run (p : pushup) (env : Git) (compile : Compile) : Option Error × Trace :=
  if p.ignoreFiles.length = 0 then (some Error.needPattern, [])
  else p.loop env compile p.retries.toNat []

/-- The error message, `err.Error()`. The verb `%q` puts a string between double
quotes and escapes it; `special` is the escape `strconv.Quote` writes for a
character outside printable ASCII. A `[]string` under `%q` is its quoted
elements between brackets, separated by blanks. -/
def quoteChar (special : Char → String) (c : Char) : String :=
  if c = '"' then "\\\""
  else if c = '\\' then "\\\\"
  else if 0x20 ≤ c.toNat ∧ c.toNat ≤ 0x7E then String.singleton c
  else special c

/-- The function `strconv.Quote`, up to `special`. -/
def quote (special : Char → String) (s : String) : String :=
  "\"" ++ String.join (s.data.map (quoteChar special)) ++ "\""

/-- The text of `err.Error()`. -/
def Error.message (special : Char → String) : Error → String
  | Error.needPattern => "need at least one ignore pattern"
  | Error.exec msg => msg
  | Error.compile msg => msg
  | Error.noMatch f patterns =>
    quote special f ++ " doesn't match ignore patterns [" ++
      " ".intercalate (patterns.map (quote special)) ++ "]"
  | Error.tooLong => "bufio.Scanner: token too long"
  | Error.givingUp n => "giving up after " ++ toString n ++ " retries"

/-! ## Working-tree discovery (`git.go`) -/

/-- The three outcomes of `os.Stat` that `getWorkTree` tells apart. -/
inductive StatResult where
  | found
  | notExist
  | failed (e : String)
deriving DecidableEq, Repr

/-- A Go call that may return a value, return an error, or panic. -/
inductive Outcome (α : Type) where
  | value (a : α)
  | error (e : String)
  | panic
deriving DecidableEq, Repr

/-- The call `strings.SplitN(s, sep, 2)` for a separator of one byte: the text
before the first separator and the text after it, or `s` alone when there is
no separator. -/
def SplitN2 (sep : Char) (s : List Char) : List (List Char) :=
  match s.dropWhile (fun c => c != sep) with
  | [] => [s]
  | _ :: rest => [s.takeWhile (fun c => c != sep), rest]

/-- The function `strings.TrimSuffix`. -/
def TrimSuffix (s suffix : String) : String :=
  if suffix.data.isSuffixOf s.data then String.mk (s.data.take (s.data.length - suffix.data.length))
  else s

/-- The method `getWorkTree`: the working tree directory. `stat` is the file
system as `os.Stat` sees it. Indexing a slice out of range panics. -/
def git.getWorkTree (g : git) (stat : String → StatResult) (env : Git) (tr : Trace) :
    Outcome String × Trace :=
  match stat g.gitDir with
  | StatResult.failed e => (Outcome.error e, tr)
  | st =>
    let g1 : git :=
      { gitDir := if st = StatResult.notExist then TrimSuffix g.gitDir "/.git" else g.gitDir,
        workTree := "" }
    match g1.do_ env ["worktree", "list", "--porcelain"] tr with
    | (⟨_, some e⟩, tr1) => (Outcome.error e, tr1)
    | (⟨b, none⟩, tr1) =>
      match SplitN2 '\n' b.data with
      | [] => (Outcome.panic, tr1)
      | l :: _ =>
        match SplitN2 ' ' l with
        | _ :: p :: _ => (Outcome.value (String.mk p), tr1)
        | _ => (Outcome.panic, tr1)

/-- The method `in`: a new git executor rooted in a different repository.
`join` is `filepath.Join`; a failure of `getWorkTree` panics. -/
def git.in_ (g : git) (join : String → String → String) (stat : String → StatResult)
    (env : Git) (d : String) (tr : Trace) : Outcome git × Trace :=
  let g1 : git := { g with gitDir := join d ".git" }
  match g1.getWorkTree stat env tr with
  | (Outcome.value w, tr1) => (Outcome.value { g1 with workTree := w }, tr1)
  | (_, tr1) => (Outcome.panic, tr1)

/-! ## The path matcher -/

/-- Modelled from the spec: one element of a glob pattern of the go-gitignore
library (section 4.3): a literal character, `*` or `**`. -/
inductive Tok where
  | lit (c : Char)
  | star
  | dstar
deriving DecidableEq, Repr

/-- Modelled from the spec: the pattern reader of the go-gitignore library;
two stars in a row are one `**`. -/
def collapse : List Tok → List Tok
  | Tok.star :: Tok.star :: ts => Tok.dstar :: collapse ts
  | t :: ts => t :: collapse ts
  | [] => []

/-- Modelled from the spec: the wildcards of the go-gitignore library (section
4.3). A star takes some prefix of the text and `k` matches the rest; `*` stays
within a path segment (`cross = false`), `**` crosses segments. -/
def starMatch (k : List Char → Bool) (cross : Bool) : List Char → Bool
  | [] => k []
  | c :: cs => k (c :: cs) || ((cross || c != '/') && starMatch k cross cs)

/-- Modelled from the spec: pattern matching of the go-gitignore library;
whether the whole path matches the pattern elements. -/
def matchToks : List Tok → List Char → Bool
  | [], s => s.isEmpty
  | Tok.lit c :: ts, s =>
    match s with
    | [] => false
    | d :: ds => c == d && matchToks ts ds
  | Tok.star :: ts, s => starMatch (matchToks ts) false s
  | Tok.dstar :: ts, s => starMatch (matchToks ts) true s

/-- Modelled from the spec: the compiled form of one pattern of the
go-gitignore library; a trailing `/` makes the pattern match everything rooted
in that directory (section 4.3). -/
def patternToks (pat : String) : List Tok :=
  let ts := collapse (pat.data.map (fun c => if c = '*' then Tok.star else Tok.lit c))
  if pat.data.getLast? = some '/' then ts ++ [Tok.dstar] else ts

/-- Modelled from the spec: the go-gitignore library (`ignore.CompileIgnoreLines`
and `MatchesPath`) is a dependency whose source is not at hand. Section 4.3:
`*` matches within a path segment, `**` matches across segments, a trailing
`/` restricts a pattern to directory-rooted matches, a path is safe iff at
least one pattern matches it. The spec gives negation no semantics of its own,
so `!` is an ordinary character here. -/
def MatchesPath (patterns : List String) : Matcher :=
  fun f => patterns.any (fun pat => matchToks (patternToks pat) f.data)

/-- Modelled from the spec: `ignore.CompileIgnoreLines` of the go-gitignore
library. Section 4.3: compilation fails if any pattern is syntactically
invalid; the spec does not say which patterns are, so `valid` is a parameter. -/
def CompileIgnoreLines (valid : String → Bool) : Compile :=
  fun patterns =>
    match patterns.find? (fun pat => !valid pat) with
    | some pat => Except.error ("invalid pattern: " ++ pat)
    | none => Except.ok (MatchesPath patterns)

/-! ## Vocabulary of the properties -/

/-- The call `p.git.sdo("push", "--porcelain")`. -/
def pushup.pushCall (p : pushup) : Call := ⟨p.togit, true, ["push", "--porcelain"]⟩

/-- The call `p.git.do("rev-parse", "HEAD")` made by `revParse("HEAD")`. -/
def pushup.revParseCall (p : pushup) : Call := ⟨p.togit, false, ["rev-parse", "HEAD"]⟩

/-- The call `p.git.sdo("pull", "--rebase")`. -/
def pushup.pullCall (p : pushup) : Call := ⟨p.togit, true, ["pull", "--rebase"]⟩

/-- The call `p.git.do("diff", "--name-only", before..after)`. -/
def pushup.diffCall (p : pushup) (before after : String) : Call :=
  ⟨p.togit, false, ["diff", "--name-only", before ++ ".." ++ after]⟩

/-- A `git push` subprocess. -/
def Call.isPush (c : Call) : Bool := c.args.head? = some "push"

/-- A `git pull` subprocess. -/
def Call.isPull (c : Call) : Bool := c.args.head? = some "pull"

/-- A `git diff` subprocess. -/
def Call.isDiff (c : Call) : Bool := c.args.head? = some "diff"

/-- A `git rev-parse` subprocess. -/
def Call.isRevParse (c : Call) : Bool := c.args.head? = some "rev-parse"

/-- The calls of a trace, in order. -/
def calls (T : Trace) : List Call := T.map Event.call

/-- Number of push subprocesses in a trace. -/
def pushes (T : Trace) : Nat := T.countP (fun ev => ev.call.isPush)

/-- Number of pull subprocesses in a trace. -/
def pulls (T : Trace) : Nat := T.countP (fun ev => ev.call.isPull)

/-- Number of diff subprocesses in a trace. -/
def diffs (T : Trace) : Nat := T.countP (fun ev => ev.call.isDiff)

/-- The trace after one more call. -/
def Git.after (env : Git) (tr : Trace) (c : Call) : Trace := tr ++ [⟨c, env tr c⟩]

/-- The trace after the push step of an iteration: one push, none under dry-run. -/
def pushup.afterPush (p : pushup) (env : Git) (tr : Trace) : Trace :=
  if p.dryRun then tr else env.after tr p.pushCall

/-- What the first `rev-parse HEAD` of an iteration returns. -/
def pushup.rev1 (p : pushup) (env : Git) (tr : Trace) : Output :=
  env (p.afterPush env tr) p.revParseCall

/-- The trace after the first `rev-parse HEAD` of an iteration. -/
def pushup.afterRev1 (p : pushup) (env : Git) (tr : Trace) : Trace :=
  env.after (p.afterPush env tr) p.revParseCall

/-- What the pull of an iteration returns. -/
def pushup.pullOut (p : pushup) (env : Git) (tr : Trace) : Output :=
  env (p.afterRev1 env tr) p.pullCall

/-- The trace after the pull of an iteration. -/
def pushup.afterPull (p : pushup) (env : Git) (tr : Trace) : Trace :=
  env.after (p.afterRev1 env tr) p.pullCall

/-- What the second `rev-parse HEAD` of an iteration returns. -/
def pushup.rev2 (p : pushup) (env : Git) (tr : Trace) : Output :=
  env (p.afterPull env tr) p.revParseCall

/-- The trace after the second `rev-parse HEAD` of an iteration. -/
def pushup.afterRev2 (p : pushup) (env : Git) (tr : Trace) : Trace :=
  env.after (p.afterPull env tr) p.revParseCall

/-- The diff call of an iteration, over the range `before..after`. -/
def pushup.theDiff (p : pushup) (env : Git) (tr : Trace) : Call :=
  p.diffCall (TrimSpace (p.rev1 env tr).out) (TrimSpace (p.rev2 env tr).out)

/-- What the diff of an iteration returns. -/
def pushup.diffOut (p : pushup) (env : Git) (tr : Trace) : Output :=
  env (p.afterRev2 env tr) (p.theDiff env tr)

/-- The trace after the diff of an iteration. -/
def pushup.afterDiff (p : pushup) (env : Git) (tr : Trace) : Trace :=
  env.after (p.afterRev2 env tr) (p.theDiff env tr)

/-- The error `checkRules` returns once the diff has returned `o`. -/
def pushup.verdict (p : pushup) (compile : Compile) (o : Output) : Option Error :=
  match o.err with
  | some e => some (Error.exec e)
  | none =>
    match compile p.ignoreFiles with
    | Except.error e => some (Error.compile e)
    | Except.ok m => scanLoop m p.ignoreFiles (rawLines o.out.data)

/-- How the loop of `run` goes on after the body of an iteration with `k`
iterations left after it: return, or run the remaining iterations. -/
def pushup.resume (p : pushup) (env : Git) (compile : Compile) (k : Nat)
    (x : Option (Option Error) × Trace) : Option Error × Trace :=
  match x with
  | (some r, t) => (r, t)
  | (none, t) => p.loop env compile k t

/-- The receiver of the `worktree list` call of `getWorkTree`: the git
directory with a trailing `/.git` cut off when it does not exist, and no
working tree. -/
def git.probe (g : git) (stat : String → StatResult) : git :=
  { gitDir := if stat g.gitDir = StatResult.notExist then TrimSuffix g.gitDir "/.git"
      else g.gitDir,
    workTree := "" }

/-- The call `g.do("worktree", "list", "--porcelain")` of `getWorkTree`. -/
def git.workTreeCall (g : git) (stat : String → StatResult) : Call :=
  ⟨g.probe stat, false, ["worktree", "list", "--porcelain"]⟩

/-- What `getWorkTree` makes of the output of `worktree list --porcelain`:
the text after the first space of the first line. -/
def firstEntry (b : String) : Outcome String :=
  match SplitN2 '\n' b.data with
  | [] => Outcome.panic
  | l :: _ =>
    match SplitN2 ' ' l with
    | _ :: p :: _ => Outcome.value (String.mk p)
    | _ => Outcome.panic

/-- The states in which `run` starts an iteration of its loop: `Iter p env compile k tr`
says that the loop condition is evaluated with `k` iterations left after the
subprocesses of `tr` have run (with `k = 0` the loop is left). -/
inductive Iter (p : pushup) (env : Git) (compile : Compile) : Nat → Trace → Prop where
  | first : p.ignoreFiles ≠ [] → Iter p env compile p.retries.toNat []
  | next {k : Nat} {tr tr1 : Trace} : Iter p env compile (k + 1) tr →
      p.attempt env compile tr = (none, tr1) → Iter p env compile k tr1

/-! ## Scenarios -/

/-- A git whose n-th subprocess returns the n-th result of a script and that
fails once the script is used up. -/
def scripted (outs : List Output) : Git :=
  fun tr _ => outs.getD tr.length ⟨"", some "exit status 128"⟩

/-- A subprocess that succeeds with the given output. -/
def ok (out : String) : Output := ⟨out, none⟩

/-- A subprocess that exits with status 1. -/
def failed : Output := ⟨"", some "exit status 1"⟩

/-- The configuration literal of the tests, `pushup{git: r, ignoreFiles: ..., retries: ...}`:
the fields left out have the zero value, `rebase` among them. -/
def testConfig (ignoreFiles : List String) (retries : Int) (dryRun : Bool) : pushup :=
  { gitDir := "", workTree := "", ignoreFiles := ignoreFiles, retries := retries,
    rebase := false, verbose := false, dryRun := dryRun }

/-- A compiler that accepts every pattern. -/
def lenient : Compile := CompileIgnoreLines (fun _ => true)

/-- The scenario of `TestConflict`: the push is rejected, the pull brings in `someotherfile`. -/
def conflictGit : Git :=
  scripted [failed, ok "aaa\n", ok "", ok "bbb\n", ok "someotherfile\n"]

/-- The scenario of `TestOk`: the push is rejected, the pull brings in
`README.md`, the second push goes through. -/
def okGit : Git :=
  scripted [failed, ok "aaa\n", ok "", ok "bbb\n", ok "README.md\n", ok ""]

/-- A remote that wins every push race with changes the patterns allow. -/
def raceGit : Git :=
  scripted [failed, ok "aaa\n", ok "", ok "bbb\n", ok "README.md\n",
    failed, ok "bbb\n", ok "", ok "ccc\n", ok "NOTES.md\n"]

/-- The scenario of `TestDryRun`: no push, the pull brings in `README.md`. -/
def dryGit : Git := scripted [ok "aaa\n", ok "", ok "bbb\n", ok "README.md\n"]

/-- A path of `MaxScanTokenSize` bytes. -/
def longLine : List Char := List.replicate MaxScanTokenSize 'a'

/-- The push is rejected and the diff lists one path of `MaxScanTokenSize` bytes. -/
def longGit : Git := scripted [failed, ok "aaa\n", ok "", ok "bbb\n", ok (String.mk longLine)]

/-- A porcelain listing of two worktrees; the path of the first one holds a space. -/
def listingGit : Git :=
  scripted [ok "worktree /home/me/my repo\nHEAD 0a1b\nbranch refs/heads/master\n\nworktree /tmp/wt\n"]

/-! ## Basic facts -/

theorem run_eq_loop_of_iter {p : pushup} {env : Git} {compile : Compile} {k : Nat} {tr : Trace}
    (h : Iter p env compile k tr) : p.run env compile = p.loop env compile k tr := by
  induction h with
  | first hne =>
    have : p.ignoreFiles.length ≠ 0 := by
      intro h0
      exact hne (List.length_eq_zero.mp h0)
    simp [pushup.run, this]
  | next _ hstep ih =>
    rw [ih, pushup.loop, hstep]

theorem attempt_push_ok {p : pushup} {env : Git} {compile : Compile} {tr : Trace}
    (hdry : p.dryRun = false) (hpush : (env tr p.pushCall).err = none) :
    p.attempt env compile tr = (some none, env.after tr p.pushCall) := by
  rcases hc : env tr p.pushCall with ⟨o, e⟩
  rw [hc] at hpush
  simp only at hpush
  subst hpush
  simp only [pushup.pushCall] at hc
  simp [pushup.attempt, hdry, git.sdo, git.wdo, hc, Git.after, pushup.pushCall]

theorem revParse_eq (g : git) (env : Git) (r : String) (tr : Trace) :
    g.revParse env r tr =
      (match (env tr ⟨g, false, ["rev-parse", r]⟩).err with
        | some e => Except.error (Error.exec e)
        | none => Except.ok (TrimSpace (env tr ⟨g, false, ["rev-parse", r]⟩).out),
       env.after tr ⟨g, false, ["rev-parse", r]⟩) := by
  rcases hc : env tr ⟨g, false, ["rev-parse", r]⟩ with ⟨o, e⟩
  cases e <;> simp [git.revParse, git.do_, git.wdo, hc, Git.after]

theorem checkRules_eq (p : pushup) (env : Git) (compile : Compile) (before after : String)
    (tr : Trace) :
    p.checkRules env compile before after tr =
      (match (env tr (p.diffCall before after)).err with
        | some e => some (Error.exec e)
        | none =>
          match compile p.ignoreFiles with
          | Except.error e => some (Error.compile e)
          | Except.ok m =>
            scanLoop m p.ignoreFiles (rawLines (env tr (p.diffCall before after)).out.data),
       env.after tr (p.diffCall before after)) := by
  rcases hc : env tr (p.diffCall before after) with ⟨o, e⟩
  simp only [pushup.diffCall] at hc
  cases e with
  | some e => simp [pushup.checkRules, git.do_, git.wdo, hc, Git.after, pushup.diffCall]
  | none =>
    cases hm : compile p.ignoreFiles <;>
      simp [pushup.checkRules, git.do_, git.wdo, hc, Git.after, pushup.diffCall, hm]

/-- The loop body, case by case. -/
theorem attempt_eq (p : pushup) (env : Git) (compile : Compile) (tr : Trace) :
    p.attempt env compile tr =
      if p.dryRun = false ∧ (env tr p.pushCall).err = none then
        (some none, env.after tr p.pushCall)
      else
        match (env (p.afterPush env tr) p.revParseCall).err with
        | some e => (some (some (Error.exec e)), env.after (p.afterPush env tr) p.revParseCall)
        | none =>
          match (env (env.after (p.afterPush env tr) p.revParseCall) p.pullCall).err with
          | some e =>
            (some (some (Error.exec e)),
              env.after (env.after (p.afterPush env tr) p.revParseCall) p.pullCall)
          | none =>
            match (env (env.after (env.after (p.afterPush env tr) p.revParseCall) p.pullCall)
                p.revParseCall).err with
            | some e =>
              (some (some (Error.exec e)),
                env.after (env.after (env.after (p.afterPush env tr) p.revParseCall) p.pullCall)
                  p.revParseCall)
            | none =>
              match p.checkRules env compile
                  (TrimSpace (env (p.afterPush env tr) p.revParseCall).out)
                  (TrimSpace (env (env.after (env.after (p.afterPush env tr) p.revParseCall)
                    p.pullCall) p.revParseCall).out)
                  (env.after (env.after (env.after (p.afterPush env tr) p.revParseCall)
                    p.pullCall) p.revParseCall) with
              | (some e, t) => (some (some e), t)
              | (none, t) => if p.dryRun then (some none, t) else (none, t) := by
  have hpull : ∀ t : Trace, p.togit.sdo env ["pull", "--rebase"] t =
      (env t p.pullCall, env.after t p.pullCall) := fun _ => rfl
  have hrest : ∀ t0 : Trace, p.pullAndCheck env compile t0 =
      (match (env t0 p.revParseCall).err with
        | some e => (some (some (Error.exec e)), env.after t0 p.revParseCall)
        | none =>
          match (env (env.after t0 p.revParseCall) p.pullCall).err with
          | some e =>
            (some (some (Error.exec e)), env.after (env.after t0 p.revParseCall) p.pullCall)
          | none =>
            match (env (env.after (env.after t0 p.revParseCall) p.pullCall)
                p.revParseCall).err with
            | some e =>
              (some (some (Error.exec e)),
                env.after (env.after (env.after t0 p.revParseCall) p.pullCall) p.revParseCall)
            | none =>
              match p.checkRules env compile
                  (TrimSpace (env t0 p.revParseCall).out)
                  (TrimSpace (env (env.after (env.after t0 p.revParseCall)
                    p.pullCall) p.revParseCall).out)
                  (env.after (env.after (env.after t0 p.revParseCall)
                    p.pullCall) p.revParseCall) with
              | (some e, t) => (some (some e), t)
              | (none, t) => if p.dryRun then (some none, t) else (none, t)) := by
    intro t0
    unfold pushup.pullAndCheck
    simp only [revParse_eq, hpull]
    change (match (match (env t0 p.revParseCall).err with
        | some e => Except.error (Error.exec e)
        | none => Except.ok (TrimSpace (env t0 p.revParseCall).out),
       env.after t0 p.revParseCall) with
        | (Except.error e, tr2) => ((some (some e) : Option (Option Error)), tr2)
        | (Except.ok before, tr2) => _) = _
    rcases h1 : env t0 p.revParseCall with ⟨o1, e1⟩
    cases e1 with
    | some e => simp
    | none =>
      simp only
      rcases h2 : env (env.after t0 p.revParseCall) p.pullCall with ⟨o2, e2⟩
      cases e2 with
      | some e => simp
      | none =>
        simp only
        change (match (match (env (env.after (env.after t0 p.revParseCall) p.pullCall)
            p.revParseCall).err with
            | some e => Except.error (Error.exec e)
            | none => Except.ok (TrimSpace (env (env.after (env.after t0 p.revParseCall)
                p.pullCall) p.revParseCall).out),
           env.after (env.after (env.after t0 p.revParseCall) p.pullCall) p.revParseCall) with
            | (Except.error e, tr4) => ((some (some e) : Option (Option Error)), tr4)
            | (Except.ok after, tr4) => _) = _
        rcases h3 : env (env.after (env.after t0 p.revParseCall) p.pullCall) p.revParseCall
          with ⟨o3, e3⟩
        cases e3 with
        | some e => simp
        | none => simp
  have hs : p.togit.sdo env ["push", "--porcelain"] tr =
      (env tr p.pushCall, env.after tr p.pushCall) := rfl
  unfold pushup.attempt
  simp only [hs, hrest]
  by_cases hdry : p.dryRun = true
  · simp [pushup.afterPush, hdry]
  · have hdry0 : p.dryRun = false := by simpa using hdry
    rcases hc : env tr p.pushCall with ⟨o, e⟩
    cases e with
    | none => simp [hdry0]
    | some e => simp [pushup.afterPush, hdry0, Git.after, hc]

theorem checkRules_verdict (p : pushup) (env : Git) (compile : Compile) (before after : String)
    (tr : Trace) :
    p.checkRules env compile before after tr =
      (p.verdict compile (env tr (p.diffCall before after)),
        env.after tr (p.diffCall before after)) := by
  rw [checkRules_eq]
  rfl

/-- Case analysis of one iteration of the loop of `run`. -/
theorem attempt_cases (p : pushup) (env : Git) (compile : Compile) (tr : Trace)
    (P : Option (Option Error) × Trace → Prop)
    (hpushed : p.dryRun = false → (env tr p.pushCall).err = none →
      P (some none, env.after tr p.pushCall))
    (hrev1 : ∀ e, (p.dryRun = false → (env tr p.pushCall).err ≠ none) →
      (p.rev1 env tr).err = some e → P (some (some (Error.exec e)), p.afterRev1 env tr))
    (hpull : ∀ e, (p.dryRun = false → (env tr p.pushCall).err ≠ none) →
      (p.rev1 env tr).err = none → (p.pullOut env tr).err = some e →
      P (some (some (Error.exec e)), p.afterPull env tr))
    (hrev2 : ∀ e, (p.dryRun = false → (env tr p.pushCall).err ≠ none) →
      (p.rev1 env tr).err = none → (p.pullOut env tr).err = none →
      (p.rev2 env tr).err = some e → P (some (some (Error.exec e)), p.afterRev2 env tr))
    (hcheck : ∀ e, (p.dryRun = false → (env tr p.pushCall).err ≠ none) →
      (p.rev1 env tr).err = none → (p.pullOut env tr).err = none →
      (p.rev2 env tr).err = none → p.verdict compile (p.diffOut env tr) = some e →
      P (some (some e), p.afterDiff env tr))
    (hdry : p.dryRun = true →
      (p.rev1 env tr).err = none → (p.pullOut env tr).err = none →
      (p.rev2 env tr).err = none → p.verdict compile (p.diffOut env tr) = none →
      P (some none, p.afterDiff env tr))
    (hnext : p.dryRun = false → (env tr p.pushCall).err ≠ none →
      (p.rev1 env tr).err = none → (p.pullOut env tr).err = none →
      (p.rev2 env tr).err = none → p.verdict compile (p.diffOut env tr) = none →
      P (none, p.afterDiff env tr)) :
    P (p.attempt env compile tr) := by
  rw [attempt_eq]
  by_cases h0 : p.dryRun = false ∧ (env tr p.pushCall).err = none
  · rw [if_pos h0]
    exact hpushed h0.1 h0.2
  · rw [if_neg h0]
    have hfail : p.dryRun = false → (env tr p.pushCall).err ≠ none := fun hd hn => h0 ⟨hd, hn⟩
    change P (match (p.rev1 env tr).err with
      | some e => (some (some (Error.exec e)), p.afterRev1 env tr)
      | none =>
        match (p.pullOut env tr).err with
        | some e => (some (some (Error.exec e)), p.afterPull env tr)
        | none =>
          match (p.rev2 env tr).err with
          | some e => (some (some (Error.exec e)), p.afterRev2 env tr)
          | none =>
            match p.checkRules env compile (TrimSpace (p.rev1 env tr).out)
                (TrimSpace (p.rev2 env tr).out) (p.afterRev2 env tr) with
            | (some e, t) => (some (some e), t)
            | (none, t) => if p.dryRun then (some none, t) else (none, t))
    rw [checkRules_verdict]
    change P (match (p.rev1 env tr).err with
      | some e => (some (some (Error.exec e)), p.afterRev1 env tr)
      | none =>
        match (p.pullOut env tr).err with
        | some e => (some (some (Error.exec e)), p.afterPull env tr)
        | none =>
          match (p.rev2 env tr).err with
          | some e => (some (some (Error.exec e)), p.afterRev2 env tr)
          | none =>
            match (p.verdict compile (p.diffOut env tr), p.afterDiff env tr) with
            | (some e, t) => (some (some e), t)
            | (none, t) => if p.dryRun then (some none, t) else (none, t))
    cases h1 : (p.rev1 env tr).err with
    | some e => exact hrev1 e hfail h1
    | none =>
      cases h2 : (p.pullOut env tr).err with
      | some e => exact hpull e hfail h1 h2
      | none =>
        cases h3 : (p.rev2 env tr).err with
        | some e => exact hrev2 e hfail h1 h2 h3
        | none =>
          cases h4 : p.verdict compile (p.diffOut env tr) with
          | some e => exact hcheck e hfail h1 h2 h3 h4
          | none =>
            by_cases hd : p.dryRun = true
            · simp only [hd, if_true]
              exact hdry hd h1 h2 h3 h4
            · have hd0 : p.dryRun = false := by simpa using hd
              simp only [hd0, Bool.false_eq_true, if_false]
              exact hnext hd0 (hfail hd0) h1 h2 h3 h4

/-- The value of `run` when an iteration ends the loop or hands over to the next one. -/
theorem run_of_iter_attempt {p : pushup} {env : Git} {compile : Compile} {k : Nat} {tr : Trace}
    (h : Iter p env compile (k + 1) tr) :
    p.run env compile =
      match p.attempt env compile tr with
      | (some r, t) => (r, t)
      | (none, t) => p.loop env compile k t := by
  rw [run_eq_loop_of_iter h, pushup.loop]

theorem iter_first_succ {p : pushup} {env : Git} {compile : Compile}
    (hne : p.ignoreFiles ≠ []) (hN : 1 ≤ p.retries) :
    Iter p env compile ((p.retries.toNat - 1) + 1) [] := by
  have h : (p.retries.toNat - 1) + 1 = p.retries.toNat := by omega
  rw [h]
  exact Iter.first hne

/-- C5: a successful push ends the loop at once. In every iteration of a
non-dry-run `run` whose push succeeds, `run` returns nil and the push is the
last subprocess; when the first push succeeds (non-empty patterns, at least
one retry) the push is the only subprocess and there is no pull. -/
theorem push_success_ends_loop (p : pushup) (env : Git) (compile : Compile)
    (hdry : p.dryRun = false) (hne : p.ignoreFiles ≠ []) (hN : 1 ≤ p.retries) :
    (∀ k tr, Iter p env compile (k + 1) tr → (env tr p.pushCall).err = none →
      p.run env compile = (none, env.after tr p.pushCall)) ∧
    ((env [] p.pushCall).err = none →
      p.run env compile = (none, [⟨p.pushCall, env [] p.pushCall⟩]) ∧
      calls (p.run env compile).2 = [p.pushCall] ∧ pulls (p.run env compile).2 = 0) := by
  have key : ∀ k tr, Iter p env compile (k + 1) tr → (env tr p.pushCall).err = none →
      p.run env compile = (none, env.after tr p.pushCall) := by
    intro k tr hiter hpush
    rw [run_of_iter_attempt hiter, attempt_push_ok hdry hpush]
  refine ⟨key, fun hpush => ?_⟩
  have h := key _ [] (iter_first_succ hne hN) hpush
  rw [h]
  simp [Git.after, calls, pulls, Call.isPull, pushup.pushCall]

/-- C6: a failing pull, and likewise a failing `rev-parse HEAD`, is fatal. In
every iteration of `run` whose push failed or was skipped by dry-run: if the
first rev-parse fails, or it succeeds and the pull fails, or both succeed and
the second rev-parse fails, then `run` returns the error of that subprocess
and that subprocess is the last one, however many iterations are left. -/
theorem pull_failure_is_fatal (p : pushup) (env : Git) (compile : Compile) (k : Nat)
    (tr : Trace) (e : String) (hiter : Iter p env compile (k + 1) tr)
    (hpush : p.dryRun = false → (env tr p.pushCall).err ≠ none) :
    ((p.rev1 env tr).err = some e →
      p.run env compile = (some (Error.exec e), p.afterRev1 env tr)) ∧
    ((p.rev1 env tr).err = none → (p.pullOut env tr).err = some e →
      p.run env compile = (some (Error.exec e), p.afterPull env tr)) ∧
    ((p.rev1 env tr).err = none → (p.pullOut env tr).err = none →
      (p.rev2 env tr).err = some e →
      p.run env compile = (some (Error.exec e), p.afterRev2 env tr)) := by
  rw [run_of_iter_attempt hiter]
  refine ⟨fun h1 => ?_, fun h1 h2 => ?_, fun h1 h2 h3 => ?_⟩
  · refine attempt_cases p env compile tr (fun x => (match x with
      | (some r, t) => (r, t)
      | (none, t) => p.loop env compile k t) = _) ?_ ?_ ?_ ?_ ?_ ?_ ?_
    all_goals intros
    all_goals simp_all
  · refine attempt_cases p env compile tr (fun x => (match x with
      | (some r, t) => (r, t)
      | (none, t) => p.loop env compile k t) = _) ?_ ?_ ?_ ?_ ?_ ?_ ?_
    all_goals intros
    all_goals simp_all
  · refine attempt_cases p env compile tr (fun x => (match x with
      | (some r, t) => (r, t)
      | (none, t) => p.loop env compile k t) = _) ?_ ?_ ?_ ?_ ?_ ?_ ?_
    all_goals intros
    all_goals simp_all

/-! ## The scanner loop -/

theorem scanLoop_first_unmatched (m : Matcher) (patterns : List String)
    (pre : List (List Char)) (l : List Char) (post : List (List Char))
    (hpre : ∀ x ∈ pre, m (String.mk (dropCR x)) = true)
    (hl : m (String.mk (dropCR l)) = false)
    (hshort : ∀ x ∈ pre ++ [l], byteLen x < MaxScanTokenSize) :
    scanLoop m patterns (pre ++ l :: post) =
      some (Error.noMatch (String.mk (dropCR l)) patterns) := by
  induction pre with
  | nil =>
    have h : ¬ MaxScanTokenSize ≤ byteLen l := by
      have := hshort l (by simp)
      omega
    simp [scanLoop, h, hl]
  | cons x xs ih =>
    have h : ¬ MaxScanTokenSize ≤ byteLen x := by
      have := hshort x (by simp)
      omega
    have hx : m (String.mk (dropCR x)) = true := hpre x (by simp)
    have ih1 := ih (fun y hy => hpre y (by simp [hy]))
      (fun y hy => hshort y (by
        rcases List.mem_append.mp hy with h1 | h1
        · simp [h1]
        · simp [List.mem_singleton.mp h1]))
    simp [scanLoop, h, hx, ih1]

theorem scanLoop_all_matched (m : Matcher) (patterns : List String) (ls : List (List Char))
    (hall : ∀ x ∈ ls, m (String.mk (dropCR x)) = true) :
    scanLoop m patterns ls = none ∨
      (scanLoop m patterns ls = some Error.tooLong ∧ ∃ l ∈ ls, MaxScanTokenSize ≤ byteLen l) := by
  induction ls with
  | nil => simp [scanLoop]
  | cons x xs ih =>
    by_cases h : MaxScanTokenSize ≤ byteLen x
    · right
      exact ⟨by simp [scanLoop, h], x, by simp, h⟩
    · have hx : m (String.mk (dropCR x)) = true := hall x (by simp)
      rcases ih (fun y hy => hall y (by simp [hy])) with h1 | ⟨h1, l, hl, hlen⟩
      · left
        simp [scanLoop, h, hx, h1]
      · right
        exact ⟨by simp [scanLoop, h, hx, h1], l, by simp [hl], hlen⟩

/-- An iteration whose rule check fails ends `run` with the error of the check. -/
theorem run_of_check_error {p : pushup} {env : Git} {compile : Compile} {k : Nat} {tr : Trace}
    {e : Error} (hiter : Iter p env compile (k + 1) tr)
    (hpush : p.dryRun = false → (env tr p.pushCall).err ≠ none)
    (h1 : (p.rev1 env tr).err = none) (h2 : (p.pullOut env tr).err = none)
    (h3 : (p.rev2 env tr).err = none) (h4 : p.verdict compile (p.diffOut env tr) = some e) :
    p.run env compile = (some e, p.afterDiff env tr) := by
  rw [run_of_iter_attempt hiter]
  refine attempt_cases p env compile tr (fun x => (match x with
    | (some r, t) => (r, t)
    | (none, t) => p.loop env compile k t) = _) ?_ ?_ ?_ ?_ ?_ ?_ ?_
  all_goals intros
  all_goals simp_all

/-- C1 (amended): a rule violation is fatal and names the path. In every
iteration of `run` whose push failed or was skipped by dry-run, whose two
rev-parses, pull and diff succeeded, with patterns that compile to `m`: if the
diff output has a line that `m` rejects, every earlier line is accepted, and
no line up to and including it is `MaxScanTokenSize` bytes or longer, then
`run` returns the error naming that path (carriage return dropped) and the
patterns, and the diff is the last subprocess. -/
theorem rule_violation_is_fatal (p : pushup) (env : Git) (compile : Compile) (m : Matcher)
    (special : Char → String) (k : Nat) (tr : Trace)
    (pre : List (List Char)) (l : List Char) (post : List (List Char))
    (hiter : Iter p env compile (k + 1) tr)
    (hcomp : compile p.ignoreFiles = Except.ok m)
    (hpush : p.dryRun = false → (env tr p.pushCall).err ≠ none)
    (hrev1 : (p.rev1 env tr).err = none) (hpull : (p.pullOut env tr).err = none)
    (hrev2 : (p.rev2 env tr).err = none) (hdiff : (p.diffOut env tr).err = none)
    (hlines : rawLines (p.diffOut env tr).out.data = pre ++ l :: post)
    (hpre : ∀ x ∈ pre, m (String.mk (dropCR x)) = true)
    (hl : m (String.mk (dropCR l)) = false)
    (hshort : ∀ x ∈ pre ++ [l], byteLen x < MaxScanTokenSize) :
    p.run env compile =
      (some (Error.noMatch (String.mk (dropCR l)) p.ignoreFiles), p.afterDiff env tr) ∧
    (Error.noMatch (String.mk (dropCR l)) p.ignoreFiles).message special =
      quote special (String.mk (dropCR l)) ++ " doesn't match ignore patterns [" ++
        " ".intercalate (p.ignoreFiles.map (quote special)) ++ "]" := by
  refine ⟨?_, rfl⟩
  apply run_of_check_error hiter hpush hrev1 hpull hrev2
  rw [pushup.verdict, hdiff]
  simp only [hcomp, hlines]
  exact scanLoop_first_unmatched m p.ignoreFiles pre l post hpre hl hshort

/-- C7: configuration errors precede any attempt. The compiler of the
go-gitignore library reports no error: `pushup_test.go` calls its one-result
form, and the error that `checkRules` receives from it is never set; that is
the hypothesis `hlib`. For every configuration whose pattern set is empty or
holds a pattern that fails to compile, whatever the retry budget, the dry-run
setting and the behaviour of git, `run` returns an error, the one that asks for
a pattern, and spawns no subprocess at all. -/
theorem configuration_errors (p : pushup) (env : Git) (compile : Compile)
    (hlib : ∀ patterns, ∃ m, compile patterns = Except.ok m)
    (hcfg : p.ignoreFiles = [] ∨ ∃ e, compile p.ignoreFiles = Except.error e) :
    p.run env compile = (some Error.needPattern, []) ∧
    calls (p.run env compile).2 = [] ∧
    (p.run env compile).1 ≠ none := by
  have hempty : p.ignoreFiles = [] := by
    rcases hcfg with h | ⟨e, he⟩
    · exact h
    · rcases hlib p.ignoreFiles with ⟨m, hm⟩
      rw [hm] at he
      cases he
  have hrun : p.run env compile = (some Error.needPattern, []) := by
    simp [pushup.run, hempty]
  refine ⟨hrun, ?_, ?_⟩
  · rw [hrun]
    rfl
  · rw [hrun]
    intro h
    cases h

/-! ## Counting subprocesses -/

theorem isPush_calls (p : pushup) (b a : String) :
    p.pushCall.isPush = true ∧ p.revParseCall.isPush = false ∧ p.pullCall.isPush = false ∧
      (p.diffCall b a).isPush = false := by
  simp [Call.isPush, pushup.pushCall, pushup.revParseCall, pushup.pullCall, pushup.diffCall]

theorem isPull_calls (p : pushup) (b a : String) :
    p.pushCall.isPull = false ∧ p.revParseCall.isPull = false ∧ p.pullCall.isPull = true ∧
      (p.diffCall b a).isPull = false := by
  simp [Call.isPull, pushup.pushCall, pushup.revParseCall, pushup.pullCall, pushup.diffCall]

theorem isDiff_calls (p : pushup) (b a : String) :
    p.pushCall.isDiff = false ∧ p.revParseCall.isDiff = false ∧ p.pullCall.isDiff = false ∧
      (p.diffCall b a).isDiff = true := by
  simp [Call.isDiff, pushup.pushCall, pushup.revParseCall, pushup.pullCall, pushup.diffCall]

theorem isRevParse_calls (p : pushup) (b a : String) :
    p.pushCall.isRevParse = false ∧ p.revParseCall.isRevParse = true ∧
      p.pullCall.isRevParse = false ∧ (p.diffCall b a).isRevParse = false := by
  simp [Call.isRevParse, pushup.pushCall, pushup.revParseCall, pushup.pullCall, pushup.diffCall]

theorem count_afterDiff (p : pushup) (env : Git) (tr : Trace) :
    pushes (p.afterDiff env tr) = pushes tr + (if p.dryRun then 0 else 1) ∧
      pulls (p.afterDiff env tr) = pulls tr + 1 ∧ diffs (p.afterDiff env tr) = diffs tr + 1 := by
  have h1 := isPush_calls p (TrimSpace (p.rev1 env tr).out) (TrimSpace (p.rev2 env tr).out)
  have h2 := isPull_calls p (TrimSpace (p.rev1 env tr).out) (TrimSpace (p.rev2 env tr).out)
  have h3 := isDiff_calls p (TrimSpace (p.rev1 env tr).out) (TrimSpace (p.rev2 env tr).out)
  cases hd : p.dryRun <;>
    simp [pushes, pulls, diffs, pushup.afterDiff, pushup.afterRev2, pushup.afterPull,
      pushup.afterRev1, pushup.afterPush, pushup.theDiff, Git.after, hd, h1, h2, h3,
      List.countP_append, List.countP_cons]

theorem count_afterRev2 (p : pushup) (env : Git) (tr : Trace) :
    pushes (p.afterRev2 env tr) = pushes tr + (if p.dryRun then 0 else 1) ∧
      pulls (p.afterRev2 env tr) = pulls tr + 1 ∧ diffs (p.afterRev2 env tr) = diffs tr := by
  have h1 := isPush_calls p "" ""
  have h2 := isPull_calls p "" ""
  have h3 := isDiff_calls p "" ""
  cases hd : p.dryRun <;>
    simp [pushes, pulls, diffs, pushup.afterRev2, pushup.afterPull,
      pushup.afterRev1, pushup.afterPush, Git.after, hd, h1, h2, h3,
      List.countP_append, List.countP_cons]

theorem count_afterPull (p : pushup) (env : Git) (tr : Trace) :
    pushes (p.afterPull env tr) = pushes tr + (if p.dryRun then 0 else 1) ∧
      pulls (p.afterPull env tr) = pulls tr + 1 ∧ diffs (p.afterPull env tr) = diffs tr := by
  have h1 := isPush_calls p "" ""
  have h2 := isPull_calls p "" ""
  have h3 := isDiff_calls p "" ""
  cases hd : p.dryRun <;>
    simp [pushes, pulls, diffs, pushup.afterPull,
      pushup.afterRev1, pushup.afterPush, Git.after, hd, h1, h2, h3,
      List.countP_append, List.countP_cons]

theorem count_afterRev1 (p : pushup) (env : Git) (tr : Trace) :
    pushes (p.afterRev1 env tr) = pushes tr + (if p.dryRun then 0 else 1) ∧
      pulls (p.afterRev1 env tr) = pulls tr ∧ diffs (p.afterRev1 env tr) = diffs tr := by
  have h1 := isPush_calls p "" ""
  have h2 := isPull_calls p "" ""
  have h3 := isDiff_calls p "" ""
  cases hd : p.dryRun <;>
    simp [pushes, pulls, diffs,
      pushup.afterRev1, pushup.afterPush, Git.after, hd, h1, h2, h3,
      List.countP_append, List.countP_cons]

theorem count_after_push (p : pushup) (env : Git) (tr : Trace) :
    pushes (env.after tr p.pushCall) = pushes tr + 1 ∧
      pulls (env.after tr p.pushCall) = pulls tr ∧ diffs (env.after tr p.pushCall) = diffs tr := by
  have h1 := isPush_calls p "" ""
  have h2 := isPull_calls p "" ""
  have h3 := isDiff_calls p "" ""
  simp [pushes, pulls, diffs, Git.after, h1, h2, h3, List.countP_append, List.countP_cons]

/-- Each iteration spawns at most one push. -/
theorem loop_pushes_le (p : pushup) (env : Git) (compile : Compile) (k : Nat) :
    ∀ tr, pushes (p.loop env compile k tr).2 ≤ pushes tr + k := by
  induction k with
  | zero => intro tr; simp [pushup.loop]
  | succ k ih =>
    intro tr
    rw [pushup.loop]
    refine attempt_cases p env compile tr (fun x => pushes (match x with
      | (some r, t) => (r, t)
      | (none, t) => p.loop env compile k t).2 ≤ pushes tr + (k + 1)) ?_ ?_ ?_ ?_ ?_ ?_ ?_
    · intro _ _
      have := (count_after_push p env tr).1
      simp only; omega
    · intro e _ _
      have := (count_afterRev1 p env tr).1
      simp only; split at this <;> omega
    · intro e _ _ _
      have := (count_afterPull p env tr).1
      simp only; split at this <;> omega
    · intro e _ _ _ _
      have := (count_afterRev2 p env tr).1
      simp only; split at this <;> omega
    · intro e _ _ _ _ _
      have := (count_afterDiff p env tr).1
      simp only; split at this <;> omega
    · intro _ _ _ _ _
      have := (count_afterDiff p env tr).1
      simp only; split at this <;> omega
    · intro _ _ _ _ _ _
      have := (count_afterDiff p env tr).1
      have h2 := ih (p.afterDiff env tr)
      simp only; split at this <;> omega

/-! ## Whole executions -/

theorem mem_after (env : Git) (tr : Trace) (c : Call) : (⟨c, env tr c⟩ : Event) ∈ env.after tr c := by
  simp [Git.after]

theorem mem_afterRev1 (p : pushup) (env : Git) (tr : Trace) :
    (⟨p.revParseCall, p.rev1 env tr⟩ : Event) ∈ p.afterRev1 env tr :=
  mem_after env _ _

theorem mem_afterPull (p : pushup) (env : Git) (tr : Trace) :
    (⟨p.pullCall, p.pullOut env tr⟩ : Event) ∈ p.afterPull env tr :=
  mem_after env _ _

theorem mem_afterRev2 (p : pushup) (env : Git) (tr : Trace) :
    (⟨p.revParseCall, p.rev2 env tr⟩ : Event) ∈ p.afterRev2 env tr :=
  mem_after env _ _

theorem mem_afterDiff (p : pushup) (env : Git) (tr : Trace) :
    (⟨p.theDiff env tr, p.diffOut env tr⟩ : Event) ∈ p.afterDiff env tr :=
  mem_after env _ _

theorem run_eq_loop (p : pushup) (env : Git) (compile : Compile) (hne : p.ignoreFiles ≠ []) :
    p.run env compile = p.loop env compile p.retries.toNat [] :=
  run_eq_loop_of_iter (Iter.first hne)

theorem loop_succ (p : pushup) (env : Git) (compile : Compile) (k : Nat) (tr : Trace) :
    p.loop env compile (k + 1) tr = p.resume env compile k (p.attempt env compile tr) := rfl

theorem resume_some (p : pushup) (env : Git) (compile : Compile) (k : Nat) (r : Option Error)
    (t : Trace) : p.resume env compile k (some r, t) = (r, t) := rfl

theorem resume_none (p : pushup) (env : Git) (compile : Compile) (k : Nat) (t : Trace) :
    p.resume env compile k (none, t) = p.loop env compile k t := rfl

/-- When every push fails and every other step succeeds, the loop runs out of budget. -/
theorem loop_all_fail (p : pushup) (env : Git) (compile : Compile) (hdry : p.dryRun = false)
    (k : Nat) :
    ∀ tr, (∀ ev ∈ (p.loop env compile k tr).2,
        (ev.call.isPush = true → ev.result.err ≠ none) ∧
        (ev.call.isRevParse = true ∨ ev.call.isPull = true → ev.result.err = none) ∧
        (ev.call.isDiff = true → p.verdict compile ev.result = none)) →
      (p.loop env compile k tr).1 = some (Error.givingUp p.retries) ∧
      pushes (p.loop env compile k tr).2 = pushes tr + k ∧
      pulls (p.loop env compile k tr).2 = pulls tr + k := by
  induction k with
  | zero => intro tr _; simp [pushup.loop]
  | succ k ih =>
    intro tr
    rw [loop_succ]
    refine attempt_cases p env compile tr (fun x =>
      (∀ ev ∈ (p.resume env compile k x).2,
        (ev.call.isPush = true → ev.result.err ≠ none) ∧
        (ev.call.isRevParse = true ∨ ev.call.isPull = true → ev.result.err = none) ∧
        (ev.call.isDiff = true → p.verdict compile ev.result = none)) →
      (p.resume env compile k x).1 = some (Error.givingUp p.retries) ∧
      pushes (p.resume env compile k x).2 = pushes tr + (k + 1) ∧
      pulls (p.resume env compile k x).2 = pulls tr + (k + 1)) ?_ ?_ ?_ ?_ ?_ ?_ ?_
    · intro _ hok H
      rw [resume_some] at H
      exact absurd hok ((H _ (mem_after env tr p.pushCall)).1 (isPush_calls p "" "").1)
    · intro e _ he H
      rw [resume_some] at H
      have := (H _ (mem_afterRev1 p env tr)).2.1 (Or.inl (isRevParse_calls p "" "").2.1)
      simp [he] at this
    · intro e _ _ he H
      rw [resume_some] at H
      have := (H _ (mem_afterPull p env tr)).2.1 (Or.inr (isPull_calls p "" "").2.2.1)
      simp [he] at this
    · intro e _ _ _ he H
      rw [resume_some] at H
      have := (H _ (mem_afterRev2 p env tr)).2.1 (Or.inl (isRevParse_calls p "" "").2.1)
      simp [he] at this
    · intro e _ _ _ _ he H
      rw [resume_some] at H
      have := (H _ (mem_afterDiff p env tr)).2.2 (isDiff_calls p _ _).2.2.2
      simp [he] at this
    · intro hd
      simp [hdry] at hd
    · intro _ _ _ _ _ _ H
      rw [resume_none] at H ⊢
      have h := ih (p.afterDiff env tr) H
      have hc := count_afterDiff p env tr
      simp only [hdry, Bool.false_eq_true, if_false] at hc
      refine ⟨h.1, ?_, ?_⟩ <;> omega

theorem givingUp_message_ne (special : Char → String) (n : Int) (f : String)
    (patterns : List String) :
    (Error.givingUp n).message special ≠ (Error.noMatch f patterns).message special := by
  intro h
  have h2 := congrArg (fun s : String => s.data.head?) h
  simp [Error.message, quote, String.data_append] at h2

/-- C3 (amended): the retry budget. With a budget `N ≥ 0` a non-dry-run `run`
spawns at most `N` pushes; and when the pattern set is non-empty, every push of
the execution fails and every rev-parse, pull and rule check (the diff
included) of the execution succeeds, `run` spawns exactly `N` pushes and `N`
pulls and returns the giving-up error for `N`, which differs from every
rule-violation error, also in its message. -/
theorem retry_budget (p : pushup) (env : Git) (compile : Compile) (special : Char → String)
    (hdry : p.dryRun = false) (hN : 0 ≤ p.retries) :
    (pushes (p.run env compile).2 : Int) ≤ p.retries ∧
    (p.ignoreFiles ≠ [] →
      (∀ ev ∈ (p.run env compile).2,
        (ev.call.isPush = true → ev.result.err ≠ none) ∧
        (ev.call.isRevParse = true ∨ ev.call.isPull = true → ev.result.err = none) ∧
        (ev.call.isDiff = true → p.verdict compile ev.result = none)) →
      (p.run env compile).1 = some (Error.givingUp p.retries) ∧
      (pushes (p.run env compile).2 : Int) = p.retries ∧
      (pulls (p.run env compile).2 : Int) = p.retries ∧
      ∀ f patterns, Error.givingUp p.retries ≠ Error.noMatch f patterns ∧
        (Error.givingUp p.retries).message special ≠
          (Error.noMatch f patterns).message special) := by
  constructor
  · by_cases hne : p.ignoreFiles = []
    · simp [pushup.run, hne, pushes, hN]
    · rw [run_eq_loop p env compile hne]
      have h := loop_pushes_le p env compile p.retries.toNat []
      have h0 : pushes ([] : Trace) = 0 := rfl
      omega
  · intro hne H
    rw [run_eq_loop p env compile hne] at H ⊢
    have h := loop_all_fail p env compile hdry p.retries.toNat [] H
    have h0 : pushes ([] : Trace) = 0 := rfl
    have h1 : pulls ([] : Trace) = 0 := rfl
    refine ⟨h.1, by omega, by omega, fun f patterns => ⟨by simp, ?_⟩⟩
    exact givingUp_message_ne special _ f patterns

/-- When every rev-parse, pull and diff succeeds and every listed path is
matched, the loop ends with nil, with the giving-up error or with the
scanner error of an overlong line. -/
theorem loop_all_matched (p : pushup) (env : Git) (compile : Compile) (m : Matcher)
    (hcomp : compile p.ignoreFiles = Except.ok m) (k : Nat) :
    ∀ tr, (∀ ev ∈ (p.loop env compile k tr).2,
        (ev.call.isRevParse = true ∨ ev.call.isPull = true ∨ ev.call.isDiff = true →
          ev.result.err = none) ∧
        (ev.call.isDiff = true →
          ∀ l ∈ rawLines ev.result.out.data, m (String.mk (dropCR l)) = true)) →
      (p.loop env compile k tr).1 = none ∨
      (p.loop env compile k tr).1 = some (Error.givingUp p.retries) ∨
      ((p.loop env compile k tr).1 = some Error.tooLong ∧
        ∃ ev ∈ (p.loop env compile k tr).2, ev.call.isDiff = true ∧
          ∃ l ∈ rawLines ev.result.out.data, MaxScanTokenSize ≤ byteLen l) := by
  induction k with
  | zero => intro tr _; simp [pushup.loop]
  | succ k ih =>
    intro tr
    rw [loop_succ]
    refine attempt_cases p env compile tr (fun x =>
      (∀ ev ∈ (p.resume env compile k x).2,
        (ev.call.isRevParse = true ∨ ev.call.isPull = true ∨ ev.call.isDiff = true →
          ev.result.err = none) ∧
        (ev.call.isDiff = true →
          ∀ l ∈ rawLines ev.result.out.data, m (String.mk (dropCR l)) = true)) →
      (p.resume env compile k x).1 = none ∨
      (p.resume env compile k x).1 = some (Error.givingUp p.retries) ∨
      ((p.resume env compile k x).1 = some Error.tooLong ∧
        ∃ ev ∈ (p.resume env compile k x).2, ev.call.isDiff = true ∧
          ∃ l ∈ rawLines ev.result.out.data, MaxScanTokenSize ≤ byteLen l)) ?_ ?_ ?_ ?_ ?_ ?_ ?_
    · intro _ _ _
      left; rfl
    · intro e _ he H
      rw [resume_some] at H
      have := (H _ (mem_afterRev1 p env tr)).1 (Or.inl (isRevParse_calls p "" "").2.1)
      simp [he] at this
    · intro e _ _ he H
      rw [resume_some] at H
      have := (H _ (mem_afterPull p env tr)).1 (Or.inr (Or.inl (isPull_calls p "" "").2.2.1))
      simp [he] at this
    · intro e _ _ _ he H
      rw [resume_some] at H
      have := (H _ (mem_afterRev2 p env tr)).1 (Or.inl (isRevParse_calls p "" "").2.1)
      simp [he] at this
    · intro e _ _ _ _ he H
      rw [resume_some] at H ⊢
      have hd := isDiff_calls p (TrimSpace (p.rev1 env tr).out) (TrimSpace (p.rev2 env tr).out)
      have hmem := mem_afterDiff p env tr
      have herr := (H _ hmem).1 (Or.inr (Or.inr hd.2.2.2))
      have hall := (H _ hmem).2 hd.2.2.2
      simp only at herr hall
      rw [pushup.verdict, herr] at he
      simp only [hcomp] at he
      rcases scanLoop_all_matched m p.ignoreFiles _ hall with h0 | ⟨h1, l, hl, hlen⟩
      · rw [h0] at he
        cases he
      · rw [h1] at he
        cases he
        right; right
        exact ⟨rfl, _, hmem, hd.2.2.2, l, hl, hlen⟩
    · intro _ _ _ _ _ _
      left; rfl
    · intro _ _ _ _ _ _ H
      rw [resume_none] at H ⊢
      exact ih (p.afterDiff env tr) H

/-- C2 (amended): no false conflicts. For a non-empty pattern set that compiles
to `m` and every execution of `run` in which every rev-parse, pull and diff
succeeds and every line of every diff output is accepted by `m` (an empty diff
included), `run` ends with nil, with the giving-up error for the configured
budget, or, when some diff line is `MaxScanTokenSize` bytes or longer, with the
scanner error; it never ends with a rule-violation error. -/
theorem no_false_conflicts (p : pushup) (env : Git) (compile : Compile) (m : Matcher)
    (hne : p.ignoreFiles ≠ []) (hcomp : compile p.ignoreFiles = Except.ok m)
    (H : ∀ ev ∈ (p.run env compile).2,
        (ev.call.isRevParse = true ∨ ev.call.isPull = true ∨ ev.call.isDiff = true →
          ev.result.err = none) ∧
        (ev.call.isDiff = true →
          ∀ l ∈ rawLines ev.result.out.data, m (String.mk (dropCR l)) = true)) :
    ((p.run env compile).1 = none ∨
      (p.run env compile).1 = some (Error.givingUp p.retries) ∨
      ((p.run env compile).1 = some Error.tooLong ∧
        ∃ ev ∈ (p.run env compile).2, ev.call.isDiff = true ∧
          ∃ l ∈ rawLines ev.result.out.data, MaxScanTokenSize ≤ byteLen l)) ∧
    ∀ f patterns, (p.run env compile).1 ≠ some (Error.noMatch f patterns) := by
  rw [run_eq_loop p env compile hne] at H ⊢
  have h := loop_all_matched p env compile m hcomp p.retries.toNat [] H
  refine ⟨h, fun f patterns hf => ?_⟩
  rcases h with h | h | ⟨h, _⟩ <;> rw [h] at hf <;> cases hf

/-- Under dry-run an iteration always ends the loop. -/
theorem loop_dry (p : pushup) (env : Git) (compile : Compile) (hdry : p.dryRun = true)
    (k : Nat) (tr : Trace) :
    pushes (p.loop env compile k tr).2 = pushes tr ∧
    pulls (p.loop env compile k tr).2 ≤ pulls tr + 1 ∧
    diffs (p.loop env compile k tr).2 ≤ diffs tr + 1 := by
  cases k with
  | zero => simp [pushup.loop]
  | succ k =>
    rw [loop_succ]
    have c1 := count_afterRev1 p env tr
    have c2 := count_afterPull p env tr
    have c3 := count_afterRev2 p env tr
    have c4 := count_afterDiff p env tr
    simp only [hdry, if_true] at c1 c2 c3 c4
    refine attempt_cases p env compile tr (fun x =>
      pushes (p.resume env compile k x).2 = pushes tr ∧
      pulls (p.resume env compile k x).2 ≤ pulls tr + 1 ∧
      diffs (p.resume env compile k x).2 ≤ diffs tr + 1) ?_ ?_ ?_ ?_ ?_ ?_ ?_
    · intro hd
      simp [hdry] at hd
    · intro e _ _
      rw [resume_some]
      refine ⟨?_, ?_, ?_⟩ <;> simp only <;> omega
    · intro e _ _ _
      rw [resume_some]
      refine ⟨?_, ?_, ?_⟩ <;> simp only <;> omega
    · intro e _ _ _ _
      rw [resume_some]
      refine ⟨?_, ?_, ?_⟩ <;> simp only <;> omega
    · intro e _ _ _ _ _
      rw [resume_some]
      refine ⟨?_, ?_, ?_⟩ <;> simp only <;> omega
    · intro _ _ _ _ _
      rw [resume_some]
      refine ⟨?_, ?_, ?_⟩ <;> simp only <;> omega
    · intro hd
      simp [hdry] at hd

/-- C4: dry-run. With `dryRun = true`, whatever the retry budget and whatever
git does, `run` spawns no push, at most one pull and at most one diff; and when
there is a cycle (non-empty patterns, at least one retry) whose rev-parses,
pull and rule check (the diff included) succeed, `run` returns nil with the
diff of that cycle as its last subprocess. -/
theorem dry_run_single_cycle (p : pushup) (env : Git) (compile : Compile)
    (hdry : p.dryRun = true) :
    (pushes (p.run env compile).2 = 0 ∧ pulls (p.run env compile).2 ≤ 1 ∧
      diffs (p.run env compile).2 ≤ 1) ∧
    (p.ignoreFiles ≠ [] → 1 ≤ p.retries →
      (p.rev1 env []).err = none → (p.pullOut env []).err = none →
      (p.rev2 env []).err = none → p.verdict compile (p.diffOut env []) = none →
      p.run env compile = (none, p.afterDiff env []) ∧
      calls (p.run env compile).2 =
        [p.revParseCall, p.pullCall, p.revParseCall, p.theDiff env []]) := by
  constructor
  · by_cases hne : p.ignoreFiles = []
    · simp [pushup.run, hne, pushes, pulls, diffs]
    · rw [run_eq_loop p env compile hne]
      have h := loop_dry p env compile hdry p.retries.toNat []
      have h0 : pushes ([] : Trace) = 0 := rfl
      have h1 : pulls ([] : Trace) = 0 := rfl
      have h2 : diffs ([] : Trace) = 0 := rfl
      omega
  · intro hne hN h1 h2 h3 h4
    have hrun : p.run env compile = (none, p.afterDiff env []) := by
      rw [run_of_iter_attempt (iter_first_succ hne hN)]
      refine attempt_cases p env compile [] (fun x => (match x with
        | (some r, t) => (r, t)
        | (none, t) => p.loop env compile (p.retries.toNat - 1) t) = _) ?_ ?_ ?_ ?_ ?_ ?_ ?_
      all_goals intros
      all_goals simp_all
    refine ⟨hrun, ?_⟩
    rw [hrun]
    simp [calls, pushup.afterDiff, pushup.afterRev2, pushup.afterPull, pushup.afterRev1,
      pushup.afterPush, Git.after, hdry]

/-! ## Working-tree discovery -/

theorem dropWhile_ne_sep (sep : Char) (a b : List Char) (ha : sep ∉ a) :
    (a ++ sep :: b).dropWhile (fun c => c != sep) = sep :: b := by
  rw [List.dropWhile_append_of_pos]
  · simp
  · intro c hc
    have : c ≠ sep := fun h => ha (h ▸ hc)
    simpa using this

theorem takeWhile_ne_sep (sep : Char) (a b : List Char) (ha : sep ∉ a) :
    (a ++ sep :: b).takeWhile (fun c => c != sep) = a := by
  rw [List.takeWhile_append_of_pos]
  · simp
  · intro c hc
    have : c ≠ sep := fun h => ha (h ▸ hc)
    simpa using this

theorem dropWhile_ne_nil (sep : Char) (a : List Char) (ha : sep ∉ a) :
    a.dropWhile (fun c => c != sep) = [] := by
  rw [List.dropWhile_eq_nil_iff]
  intro c hc
  have : c ≠ sep := fun h => ha (h ▸ hc)
  simpa using this

theorem SplitN2_sep (sep : Char) (a b : List Char) (ha : sep ∉ a) :
    SplitN2 sep (a ++ sep :: b) = [a, b] := by
  simp [SplitN2, dropWhile_ne_sep sep a b ha, takeWhile_ne_sep sep a b ha]

theorem SplitN2_none (sep : Char) (a : List Char) (ha : sep ∉ a) : SplitN2 sep a = [a] := by
  simp [SplitN2, dropWhile_ne_nil sep a ha]

theorem getWorkTree_eq (g : git) (stat : String → StatResult) (env : Git) (tr : Trace)
    (hstat : ∀ e, stat g.gitDir ≠ StatResult.failed e)
    (herr : (env tr (g.workTreeCall stat)).err = none) :
    g.getWorkTree stat env tr =
      (firstEntry (env tr (g.workTreeCall stat)).out, env.after tr (g.workTreeCall stat)) := by
  rcases hc : env tr (g.workTreeCall stat) with ⟨o, e⟩
  rw [hc] at herr
  simp only at herr
  subst herr
  have hc2 := hc
  simp only [git.workTreeCall, git.probe] at hc
  unfold git.getWorkTree
  cases hs : stat g.gitDir with
  | failed e => exact absurd hs (hstat e)
  | found =>
    simp [hs] at hc
    simp only [git.do_, git.wdo, hs, hc]
    rcases h1 : SplitN2 '\n' o.data with _ | ⟨l, ls⟩
    · simp [firstEntry, h1, Git.after, git.workTreeCall, git.probe, hs, hc]
    · rcases h2 : SplitN2 ' ' l with _ | ⟨x, _ | ⟨y, ys⟩⟩ <;>
        simp [firstEntry, h1, h2, Git.after, git.workTreeCall, git.probe, hs, hc]
  | notExist =>
    simp [hs] at hc
    simp only [git.do_, git.wdo, hs, hc]
    rcases h1 : SplitN2 '\n' o.data with _ | ⟨l, ls⟩
    · simp [firstEntry, h1, Git.after, git.workTreeCall, git.probe, hs, hc]
    · rcases h2 : SplitN2 ' ' l with _ | ⟨x, _ | ⟨y, ys⟩⟩ <;>
        simp [firstEntry, h1, h2, Git.after, git.workTreeCall, git.probe, hs, hc]

theorem firstEntry_of_line (b : String) (a P rest : List Char)
    (hout : b.data = a ++ ' ' :: P ++ rest)
    (ha : ' ' ∉ a) (hline : '\n' ∉ a ++ ' ' :: P)
    (hrest : rest = [] ∨ ∃ later, rest = '\n' :: later) :
    firstEntry b = Outcome.value (String.mk P) := by
  have hl : ∃ x, SplitN2 '\n' b.data = (a ++ ' ' :: P) :: x := by
    rw [hout]
    rcases hrest with h | ⟨later, h⟩
    · subst h
      refine ⟨[], ?_⟩
      have := SplitN2_none '\n' (a ++ ' ' :: P) hline
      simpa using this
    · subst h
      refine ⟨[later], ?_⟩
      have := SplitN2_sep '\n' (a ++ ' ' :: P) later hline
      simpa using this
  rcases hl with ⟨x, h⟩
  simp [firstEntry, h, SplitN2_sep ' ' a P ha]

/-- C10: working-tree discovery parses the first porcelain entry. When
`os.Stat` does not fail and the `worktree list --porcelain` call succeeds with
an output whose first line is `a`, one space and `P` (`a` without a space, so
the space is the first one of the line; the line ends at the first newline or
at the end of the output), `getWorkTree` returns exactly `P`, whatever `P`
holds besides newlines and whatever lines follow, after that one subprocess. -/
theorem getWorkTree_first_entry (g : git) (stat : String → StatResult) (env : Git)
    (tr : Trace) (a P rest : List Char)
    (hstat : ∀ e, stat g.gitDir ≠ StatResult.failed e)
    (herr : (env tr (g.workTreeCall stat)).err = none)
    (hout : (env tr (g.workTreeCall stat)).out.data = a ++ ' ' :: P ++ rest)
    (ha : ' ' ∉ a) (hline : '\n' ∉ a ++ ' ' :: P)
    (hrest : rest = [] ∨ ∃ later, rest = '\n' :: later) :
    g.getWorkTree stat env tr =
      (Outcome.value (String.mk P), env.after tr (g.workTreeCall stat)) := by
  rw [getWorkTree_eq g stat env tr hstat herr,
    firstEntry_of_line _ a P rest hout ha hline hrest]

/-! ## The path matcher -/

theorem starMatch_iff (k : List Char → Bool) (cross : Bool) (s : List Char) :
    starMatch k cross s = true ↔
      ∃ a b, s = a ++ b ∧ (cross = true ∨ '/' ∉ a) ∧ k b = true := by
  induction s with
  | nil =>
    constructor
    · intro h
      exact ⟨[], [], rfl, Or.inr (by simp), by simpa [starMatch] using h⟩
    · rintro ⟨a, b, hab, _, hk⟩
      have hb : b = [] := (List.append_eq_nil.mp hab.symm).2
      subst hb
      simpa [starMatch] using hk
  | cons c cs ih =>
    constructor
    · intro h
      simp only [starMatch, Bool.or_eq_true, Bool.and_eq_true, bne_iff_ne, ne_eq] at h
      rcases h with h | ⟨hc, h⟩
      · exact ⟨[], c :: cs, rfl, Or.inr (by simp), h⟩
      · rcases ih.mp h with ⟨a, b, hab, hx, hk⟩
        refine ⟨c :: a, b, by simp [hab], ?_, hk⟩
        rcases hc with hc | hc
        · exact Or.inl hc
        · rcases hx with hx | hx
          · exact Or.inl hx
          · right
            intro hmem
            rcases List.mem_cons.mp hmem with h1 | h1
            · exact hc h1.symm
            · exact hx h1
    · rintro ⟨a, b, hab, hx, hk⟩
      simp only [starMatch, Bool.or_eq_true, Bool.and_eq_true, bne_iff_ne, ne_eq]
      cases a with
      | nil =>
        left
        simp only [List.nil_append] at hab
        rw [hab]
        exact hk
      | cons x a =>
        right
        simp only [List.cons_append, List.cons.injEq] at hab
        rcases hab with ⟨hcx, hcs⟩
        subst hcx
        refine ⟨?_, ih.mpr ⟨a, b, hcs, ?_, hk⟩⟩
        · rcases hx with hx | hx
          · exact Or.inl hx
          · right
            intro h1
            exact hx (by simp [h1])
        · rcases hx with hx | hx
          · exact Or.inl hx
          · right
            intro h1
            exact hx (by simp [h1])

theorem matchToks_lits (w s : List Char) : matchToks (w.map Tok.lit) s = true ↔ s = w := by
  induction w generalizing s with
  | nil => cases s <;> simp [matchToks]
  | cons c w ih =>
    cases s with
    | nil => simp [matchToks]
    | cons d ds =>
      simp only [List.map_cons, matchToks, Bool.and_eq_true, beq_iff_eq, ih, List.cons.injEq]
      constructor
      · rintro ⟨h1, h2⟩
        exact ⟨h1.symm, h2⟩
      · rintro ⟨h1, h2⟩
        exact ⟨h1.symm, h2⟩

theorem matchToks_lits_append (w : List Char) (ts : List Tok) (s : List Char) :
    matchToks (w.map Tok.lit ++ ts) (w ++ s) = matchToks ts s := by
  induction w with
  | nil => simp
  | cons c w ih => simp [matchToks, ih]

theorem collapse_lits_append (w : List Char) (ts : List Tok) :
    collapse (w.map Tok.lit ++ ts) = w.map Tok.lit ++ collapse ts := by
  induction w with
  | nil => simp
  | cons c w ih => simp [collapse, ih]

theorem map_tok_of_no_star (w : List Char) (h : '*' ∉ w) :
    w.map (fun c => if c = '*' then Tok.star else Tok.lit c) = w.map Tok.lit := by
  apply List.map_congr_left
  intro c hc
  have : c ≠ '*' := fun h1 => h (h1 ▸ hc)
  simp [this]

/-- The pattern `*` followed by the literal text `w` matches the names that end
in `w` and have no slash before it. -/
theorem star_suffix_matches (w s : List Char) :
    matchToks (Tok.star :: w.map Tok.lit) s = true ↔ ∃ a, s = a ++ w ∧ '/' ∉ a := by
  simp only [matchToks, starMatch_iff, matchToks_lits]
  constructor
  · rintro ⟨a, b, hab, hx, hb⟩
    subst hb
    rcases hx with hx | hx
    · cases hx
    · exact ⟨a, hab, hx⟩
  · rintro ⟨a, hab, hx⟩
    exact ⟨a, w, hab, Or.inr hx, rfl⟩

theorem patternToks_star_md : patternToks "*.md" = Tok.star :: (".md".data).map Tok.lit := by
  decide

theorem matches_star_md (f : String) :
    MatchesPath ["*.md"] f = true ↔ ∃ a, f.data = a ++ ".md".data ∧ '/' ∉ a := by
  simp only [MatchesPath, List.any_cons, List.any_nil, Bool.or_false, patternToks_star_md]
  exact star_suffix_matches _ _

theorem patternToks_dir_stars (d : String) (h : '*' ∉ d.data) :
    patternToks (d ++ "/**") = d.data.map Tok.lit ++ [Tok.lit '/', Tok.dstar] := by
  have hd : (d ++ "/**").data = d.data ++ ['/', '*', '*'] := by
    simp [String.data_append]
  simp only [patternToks, hd, List.map_append, map_tok_of_no_star d.data h]
  rw [collapse_lits_append]
  simp [collapse]

theorem patternToks_dir_slash (d : String) (h : '*' ∉ d.data) :
    patternToks (d ++ "/") = d.data.map Tok.lit ++ [Tok.lit '/', Tok.dstar] := by
  have hd : (d ++ "/").data = d.data ++ ['/'] := by
    simp [String.data_append]
  simp only [patternToks, hd, List.map_append, map_tok_of_no_star d.data h]
  rw [collapse_lits_append]
  simp [collapse]

theorem matches_under_dir (d rest : String) (h : '*' ∉ d.data) :
    MatchesPath [d ++ "/**"] (d ++ "/" ++ rest) = true ∧
      MatchesPath [d ++ "/"] (d ++ "/" ++ rest) = true := by
  have hp : (d ++ "/" ++ rest).data = d.data ++ ('/' :: rest.data) := by
    simp [String.data_append]
  have hm : matchToks (d.data.map Tok.lit ++ [Tok.lit '/', Tok.dstar])
      (d.data ++ ('/' :: rest.data)) = true := by
    rw [matchToks_lits_append]
    simp only [matchToks, beq_self_eq_true, Bool.true_and]
    rw [starMatch_iff]
    exact ⟨rest.data, [], by simp, Or.inl rfl, rfl⟩
  simp [MatchesPath, patternToks_dir_stars d h, patternToks_dir_slash d h, hp, hm]

/-- C9: glob semantics of the matcher. The matcher compiled from a pattern list
is `MatchesPath` of that list; `*.md` matches `README.md` and not `README.txt`;
`dir/**` and `dir/` both match `dir/file`; for every name without a slash,
`*.md` matches it exactly when it ends in `.md`; and for every directory name
without a star and every path under that directory, the directory followed by
`/**` and the directory followed by `/` both match it. -/
theorem glob_semantics :
    (∀ valid patterns m, CompileIgnoreLines valid patterns = Except.ok m →
      m = MatchesPath patterns) ∧
    (MatchesPath ["*.md"] "README.md" = true ∧ MatchesPath ["*.md"] "README.txt" = false ∧
      MatchesPath ["dir/**"] "dir/file" = true ∧ MatchesPath ["dir/"] "dir/file" = true) ∧
    (∀ name : String, '/' ∉ name.data →
      (MatchesPath ["*.md"] name = true ↔ ".md".data <:+ name.data)) ∧
    (∀ d rest : String, '*' ∉ d.data →
      MatchesPath [d ++ "/**"] (d ++ "/" ++ rest) = true ∧
      MatchesPath [d ++ "/"] (d ++ "/" ++ rest) = true) := by
  refine ⟨?_, ⟨by decide, by decide, by decide, by decide⟩, ?_, matches_under_dir⟩
  · intro valid patterns m h
    unfold CompileIgnoreLines at h
    split at h
    · cases h
    · injection h with h
      exact h.symm
  · intro name hname
    rw [matches_star_md]
    constructor
    · rintro ⟨a, ha, _⟩
      exact ⟨a, ha.symm⟩
    · rintro ⟨a, ha⟩
      refine ⟨a, ha.symm, fun hmem => hname ?_⟩
      rw [← ha]
      exact List.mem_append_left _ hmem

theorem lenient_ok (pats : List String) : lenient pats = Except.ok (MatchesPath pats) := by
  have h : pats.find? (fun pat => !(fun _ : String => true) pat) = none := by simp
  simp only [lenient, CompileIgnoreLines, h]

/-! ## The properties at concrete executions -/

theorem push_success_ends_loop_witness :
    ((scripted [ok ""] [] (testConfig ["*.md"] 2 false).pushCall).err = none ∧
      (testConfig ["*.md"] 2 false).run (scripted [ok ""]) lenient =
        (none, [⟨(testConfig ["*.md"] 2 false).pushCall, ok ""⟩])) ∧
    (Iter (testConfig ["bots/", "*.md"] 2 false) okGit lenient (0 + 1)
        ((testConfig ["bots/", "*.md"] 2 false).afterDiff okGit []) ∧
      (testConfig ["bots/", "*.md"] 2 false).run okGit lenient =
        (none, okGit.after ((testConfig ["bots/", "*.md"] 2 false).afterDiff okGit [])
          (testConfig ["bots/", "*.md"] 2 false).pushCall)) :=
  ⟨⟨by decide,
      ((push_success_ends_loop (testConfig ["*.md"] 2 false) (scripted [ok ""]) lenient
        (by decide) (by decide) (by decide)).2 (by decide)).1⟩,
    ⟨Iter.next (Iter.first (by decide)) (by decide),
      (push_success_ends_loop (testConfig ["bots/", "*.md"] 2 false) okGit lenient
        (by decide) (by decide) (by decide)).1 0 _
        (Iter.next (Iter.first (by decide)) (by decide)) (by decide)⟩⟩

theorem pull_failure_is_fatal_witness :
    (testConfig ["*.md"] 2 false).run (scripted [failed, failed]) lenient =
      (some (Error.exec "exit status 1"),
        (testConfig ["*.md"] 2 false).afterRev1 (scripted [failed, failed]) []) ∧
    (testConfig ["*.md"] 2 false).run (scripted [failed, ok "aaa\n", failed]) lenient =
      (some (Error.exec "exit status 1"),
        (testConfig ["*.md"] 2 false).afterPull (scripted [failed, ok "aaa\n", failed]) []) ∧
    (testConfig ["*.md"] 2 false).run (scripted [failed, ok "aaa\n", ok "", failed]) lenient =
      (some (Error.exec "exit status 1"),
        (testConfig ["*.md"] 2 false).afterRev2
          (scripted [failed, ok "aaa\n", ok "", failed]) []) :=
  ⟨(pull_failure_is_fatal (testConfig ["*.md"] 2 false) (scripted [failed, failed]) lenient 1 []
      "exit status 1" (Iter.first (by decide)) (by decide)).1 (by decide),
    (pull_failure_is_fatal (testConfig ["*.md"] 2 false) (scripted [failed, ok "aaa\n", failed])
      lenient 1 [] "exit status 1" (Iter.first (by decide)) (by decide)).2.1
      (by decide) (by decide),
    (pull_failure_is_fatal (testConfig ["*.md"] 2 false)
      (scripted [failed, ok "aaa\n", ok "", failed])
      lenient 1 [] "exit status 1" (Iter.first (by decide)) (by decide)).2.2
      (by decide) (by decide) (by decide)⟩

theorem rule_violation_is_fatal_witness :
    (testConfig ["*.md"] 2 false).run conflictGit lenient =
      (some (Error.noMatch "someotherfile" ["*.md"]),
        (testConfig ["*.md"] 2 false).afterDiff conflictGit []) ∧
    (Error.noMatch "someotherfile" ["*.md"]).message (fun _ => "?") =
      "\"someotherfile\" doesn't match ignore patterns [\"*.md\"]" :=
  rule_violation_is_fatal (testConfig ["*.md"] 2 false) conflictGit lenient
    (MatchesPath ["*.md"]) (fun _ => "?") 1 [] [] "someotherfile".data []
    (Iter.first (by decide)) rfl (by decide) (by decide) (by decide) (by decide) (by decide)
    (by decide) (by decide) (by decide) (by decide)

theorem no_false_conflicts_witness :
    ((testConfig ["bots/", "*.md"] 2 false).run okGit lenient).1 = none ∧
    ∀ f patterns, ((testConfig ["bots/", "*.md"] 2 false).run okGit lenient).1 ≠
      some (Error.noMatch f patterns) := by
  have h := no_false_conflicts (testConfig ["bots/", "*.md"] 2 false) okGit lenient
    (MatchesPath ["bots/", "*.md"]) (by decide) rfl (by decide)
  exact ⟨by decide, h.2⟩

theorem retry_budget_witness :
    (pushes ((testConfig ["bots/", "*.md"] 2 false).run raceGit lenient).2 : Int) ≤ 2 ∧
    ((testConfig ["bots/", "*.md"] 2 false).run raceGit lenient).1 =
      some (Error.givingUp 2) ∧
    (pushes ((testConfig ["bots/", "*.md"] 2 false).run raceGit lenient).2 : Int) = 2 ∧
    (pulls ((testConfig ["bots/", "*.md"] 2 false).run raceGit lenient).2 : Int) = 2 := by
  have h := retry_budget (testConfig ["bots/", "*.md"] 2 false) raceGit lenient (fun _ => "?")
    (by decide) (by decide)
  have h2 := h.2 (by decide) (by decide)
  exact ⟨h.1, h2.1, h2.2.1, h2.2.2.1⟩

theorem dry_run_single_cycle_witness :
    pushes ((testConfig ["bots/", "*.md"] 2 true).run dryGit lenient).2 = 0 ∧
    (testConfig ["bots/", "*.md"] 2 true).run dryGit lenient =
      (none, (testConfig ["bots/", "*.md"] 2 true).afterDiff dryGit []) ∧
    calls ((testConfig ["bots/", "*.md"] 2 true).run dryGit lenient).2 =
      [(testConfig ["bots/", "*.md"] 2 true).revParseCall,
        (testConfig ["bots/", "*.md"] 2 true).pullCall,
        (testConfig ["bots/", "*.md"] 2 true).revParseCall,
        (testConfig ["bots/", "*.md"] 2 true).diffCall "aaa" "bbb"] := by
  have h := dry_run_single_cycle (testConfig ["bots/", "*.md"] 2 true) dryGit lenient
    (by decide)
  have h2 := h.2 (by decide) (by decide) (by decide) (by decide) (by decide) (by decide)
  exact ⟨h.1.1, h2.1, h2.2⟩

theorem configuration_errors_witness :
    (testConfig [] 2 false).ignoreFiles = [] ∧
    (testConfig [] 2 false).run conflictGit lenient = (some Error.needPattern, []) ∧
    (testConfig [] 0 true).run okGit lenient = (some Error.needPattern, []) :=
  ⟨rfl,
    (configuration_errors (testConfig [] 2 false) conflictGit lenient
      (fun patterns => ⟨MatchesPath patterns, lenient_ok patterns⟩) (Or.inl rfl)).1,
    (configuration_errors (testConfig [] 0 true) okGit lenient
      (fun patterns => ⟨MatchesPath patterns, lenient_ok patterns⟩) (Or.inl rfl)).1⟩

theorem glob_semantics_witness :
    ('/' ∉ "notes.md".data ∧
      (MatchesPath ["*.md"] "notes.md" = true ↔ ".md".data <:+ "notes.md".data)) ∧
    ('*' ∉ "dir".data ∧ MatchesPath ["dir" ++ "/**"] ("dir" ++ "/" ++ "sub/file") = true ∧
      MatchesPath ["dir" ++ "/"] ("dir" ++ "/" ++ "sub/file") = true) :=
  ⟨⟨by decide, glob_semantics.2.2.1 "notes.md" (by decide)⟩,
    ⟨by decide, glob_semantics.2.2.2 "dir" "sub/file" (by decide)⟩⟩

theorem getWorkTree_first_entry_witness :
    (⟨"/home/me/my repo/.git", ""⟩ : git).getWorkTree (fun _ => StatResult.found) listingGit [] =
      (Outcome.value "/home/me/my repo",
        listingGit.after []
          ((⟨"/home/me/my repo/.git", ""⟩ : git).workTreeCall (fun _ => StatResult.found))) :=
  getWorkTree_first_entry ⟨"/home/me/my repo/.git", ""⟩ (fun _ => StatResult.found) listingGit []
    "worktree".data "/home/me/my repo".data
    "\nHEAD 0a1b\nbranch refs/heads/master\n\nworktree /tmp/wt\n".data
    (by intro e h; cases h) (by decide) (by decide) (by decide) (by decide)
    (Or.inr ⟨_, rfl⟩)

theorem loop_rebase (p : pushup) (env : Git) (compile : Compile) (b : Bool) (k : Nat) :
    ∀ tr, ({ p with rebase := b } : pushup).loop env compile k tr = p.loop env compile k tr := by
  induction k with
  | zero => intro tr; rfl
  | succ k ih =>
    intro tr
    have h : ({ p with rebase := b } : pushup).attempt env compile tr =
        p.attempt env compile tr := rfl
    rw [pushup.loop, pushup.loop, h]
    rcases p.attempt env compile tr with ⟨_ | r, t⟩
    · exact ih t
    · rfl

/-- C8: the failing input. The configuration literal of the tests leaves
`rebase` at its zero value `false`, and the pull that `run` spawns in the
scenario of `TestConflict` is `pull --rebase` all the same; in general `run`
does the same whatever the value of `rebase`. -/
theorem rebase_option_is_ignored :
    ((testConfig ["*.md"] 2 false).rebase = false ∧
      (calls ((testConfig ["*.md"] 2 false).run conflictGit lenient).2).filter Call.isPull =
        [⟨⟨"", ""⟩, true, ["pull", "--rebase"]⟩]) ∧
    ∀ (p : pushup) (env : Git) (compile : Compile) (b : Bool),
      ({ p with rebase := b } : pushup).run env compile = p.run env compile := by
  refine ⟨by decide, fun p env compile b => ?_⟩
  show (if p.ignoreFiles.length = 0 then (some Error.needPattern, [])
    else ({ p with rebase := b } : pushup).loop env compile p.retries.toNat []) = _
  rw [loop_rebase]
  rfl

/-- C3: the claim fails for an empty pattern set and for a negative budget.
With no pattern and a budget of 2 no push is spawned, so every push fails and
every other step succeeds, and `run` returns the need-a-pattern error, not the
giving-up error after 2 pushes; with a budget of -1 the zero pushes of `run`
are more than the budget. -/
theorem retry_budget_counterexample :
    ((∀ ev ∈ ((testConfig [] 2 false).run raceGit lenient).2,
        (ev.call.isPush = true → ev.result.err ≠ none) ∧
        (ev.call.isRevParse = true ∨ ev.call.isPull = true → ev.result.err = none) ∧
        (ev.call.isDiff = true → (testConfig [] 2 false).verdict lenient ev.result = none)) ∧
      (testConfig [] 2 false).run raceGit lenient = (some Error.needPattern, []) ∧
      ((testConfig [] 2 false).run raceGit lenient).1 ≠ some (Error.givingUp 2) ∧
      (pushes ((testConfig [] 2 false).run raceGit lenient).2 : Int) ≠ 2) ∧
    ((testConfig ["*.md"] (-1) false).run raceGit lenient = (some (Error.givingUp (-1)), []) ∧
      ¬ ((pushes ((testConfig ["*.md"] (-1) false).run raceGit lenient).2 : Int) ≤ -1)) := by
  refine ⟨⟨?_, by decide, by decide, by decide⟩, by decide, by decide⟩
  intro ev hev
  have h : (testConfig [] 2 false).run raceGit lenient = (some Error.needPattern, []) := by
    decide
  rw [h] at hev
  cases hev

/-! ## A diff line that does not fit the scanner buffer -/

theorem byteLen_replicate_a (n : Nat) : byteLen (List.replicate n 'a') = n := by
  induction n with
  | zero => rfl
  | succ n ih =>
    have h1 : Char.utf8Size 'a' = 1 := by decide
    simp only [byteLen, List.replicate_succ, List.map_cons, List.sum_cons, h1] at ih ⊢
    omega

theorem rawLines_replicate_a (n : Nat) (h : 0 < n) :
    rawLines (List.replicate n 'a') = [List.replicate n 'a'] := by
  induction n with
  | zero => omega
  | succ n ih =>
    have hc : ¬ ('a' = '\n') := by decide
    cases n with
    | zero => simp [rawLines, hc]
    | succ n =>
      have h2 := ih (by omega)
      rw [List.replicate_succ, rawLines, if_neg hc, h2]

theorem dropCR_replicate_a (n : Nat) : dropCR (List.replicate n 'a') = List.replicate n 'a' := by
  unfold dropCR
  have h : ¬ ((List.replicate n 'a').getLast? = some '\r') := by
    intro h1
    have h2 := List.mem_of_getLast?_eq_some h1
    have h3 := List.eq_of_mem_replicate h2
    exact absurd h3 (by decide)
  rw [if_neg h]

theorem longLine_lines : rawLines longLine = [longLine] :=
  rawLines_replicate_a MaxScanTokenSize (by decide)

theorem longLine_too_long (m : Matcher) (patterns : List String) :
    scanLoop m patterns [longLine] = some Error.tooLong := by
  have h : MaxScanTokenSize ≤ byteLen longLine := by
    rw [longLine, byteLen_replicate_a]
  simp [scanLoop, h]

theorem longLine_not_md : MatchesPath ["*.md"] (String.mk (dropCR longLine)) = false := by
  rw [Bool.eq_false_iff]
  intro h
  rcases (matches_star_md _).mp h with ⟨a, ha, _⟩
  rw [longLine, dropCR_replicate_a] at ha
  have h1 : 'd' ∈ List.replicate MaxScanTokenSize 'a' := by
    show 'd' ∈ (String.mk (List.replicate MaxScanTokenSize 'a')).data
    rw [ha]
    simp
  exact absurd (List.eq_of_mem_replicate h1) (by decide)

theorem longLine_star : MatchesPath ["*"] (String.mk (dropCR longLine)) = true := by
  have hp : patternToks "*" = Tok.star :: ([] : List Char).map Tok.lit := by decide
  simp only [MatchesPath, List.any_cons, List.any_nil, Bool.or_false, hp]
  rw [star_suffix_matches]
  refine ⟨dropCR longLine, by simp, ?_⟩
  rw [longLine, dropCR_replicate_a]
  intro h1
  exact absurd (List.eq_of_mem_replicate h1) (by decide)

theorem longGit_diffOut (pats : List String) :
    (testConfig pats 2 false).diffOut longGit [] = ok (String.mk longLine) := rfl

theorem longGit_run (pats : List String) (hne : pats ≠ []) :
    (testConfig pats 2 false).run longGit lenient =
      (some Error.tooLong, (testConfig pats 2 false).afterDiff longGit []) := by
  refine @run_of_check_error (testConfig pats 2 false) longGit lenient 1 [] Error.tooLong
    (Iter.first hne) (fun _ h => Option.noConfusion h) rfl rfl rfl ?_
  rw [longGit_diffOut, pushup.verdict]
  show (match lenient pats with
    | Except.error e => some (Error.compile e)
    | Except.ok m => scanLoop m pats (rawLines longLine)) = some Error.tooLong
  rw [lenient_ok, longLine_lines]
  exact longLine_too_long _ _

/-- C1: the claim fails when the path does not fit the scanner buffer. In the
first iteration the push is rejected, both rev-parses, the pull and the diff
succeed, the patterns `*.md` compile, and the diff output lists one path, of
`MaxScanTokenSize` bytes, that the patterns do not match; `run` returns the
scanner error, not the error that names the path. -/
theorem rule_violation_counterexample :
    Iter (testConfig ["*.md"] 2 false) longGit lenient (1 + 1) [] ∧
    lenient (testConfig ["*.md"] 2 false).ignoreFiles = Except.ok (MatchesPath ["*.md"]) ∧
    (longGit [] (testConfig ["*.md"] 2 false).pushCall).err ≠ none ∧
    ((testConfig ["*.md"] 2 false).rev1 longGit []).err = none ∧
    ((testConfig ["*.md"] 2 false).pullOut longGit []).err = none ∧
    ((testConfig ["*.md"] 2 false).rev2 longGit []).err = none ∧
    ((testConfig ["*.md"] 2 false).diffOut longGit []).err = none ∧
    rawLines ((testConfig ["*.md"] 2 false).diffOut longGit []).out.data =
      [] ++ longLine :: [] ∧
    MatchesPath ["*.md"] (String.mk (dropCR longLine)) = false ∧
    (testConfig ["*.md"] 2 false).run longGit lenient =
      (some Error.tooLong, (testConfig ["*.md"] 2 false).afterDiff longGit []) ∧
    (testConfig ["*.md"] 2 false).run longGit lenient ≠
      (some (Error.noMatch (String.mk (dropCR longLine)) ["*.md"]),
        (testConfig ["*.md"] 2 false).afterDiff longGit []) := by
  have hrun := longGit_run ["*.md"] (by decide)
  refine ⟨Iter.first (by decide), lenient_ok _, fun h => Option.noConfusion h, rfl, rfl, rfl,
    rfl, ?_, longLine_not_md, hrun, ?_⟩
  · rw [longGit_diffOut]
    exact longLine_lines
  · rw [hrun]
    intro h
    cases h

/-- C2: the claim fails when a line does not fit the scanner buffer. Every
rev-parse, pull and diff of the execution succeeds and the one path the diff
lists, of `MaxScanTokenSize` bytes, is matched by the pattern `*`; `run` ends
with the scanner error, neither with nil nor with the giving-up error. -/
theorem no_false_conflicts_counterexample :
    (testConfig ["*"] 2 false).ignoreFiles ≠ [] ∧
    lenient (testConfig ["*"] 2 false).ignoreFiles = Except.ok (MatchesPath ["*"]) ∧
    (1 : Int) ≤ (testConfig ["*"] 2 false).retries ∧
    (∀ ev ∈ ((testConfig ["*"] 2 false).run longGit lenient).2,
      (ev.call.isRevParse = true ∨ ev.call.isPull = true ∨ ev.call.isDiff = true →
        ev.result.err = none) ∧
      (ev.call.isDiff = true →
        ∀ l ∈ rawLines ev.result.out.data, MatchesPath ["*"] (String.mk (dropCR l)) = true)) ∧
    ((testConfig ["*"] 2 false).run longGit lenient).1 = some Error.tooLong ∧
    ((testConfig ["*"] 2 false).run longGit lenient).1 ≠ none ∧
    ((testConfig ["*"] 2 false).run longGit lenient).1 ≠
      some (Error.givingUp (testConfig ["*"] 2 false).retries) := by
  have hrun := longGit_run ["*"] (by decide)
  refine ⟨by decide, lenient_ok _, by decide, ?_, ?_, ?_, ?_⟩
  · rw [hrun]
    intro ev hev
    have hmem : ev ∈ (testConfig ["*"] 2 false).afterRev2 longGit [] ∨
        ev = ⟨(testConfig ["*"] 2 false).theDiff longGit [], ok (String.mk longLine)⟩ := by
      have h : (testConfig ["*"] 2 false).afterDiff longGit [] =
          (testConfig ["*"] 2 false).afterRev2 longGit [] ++
            [⟨(testConfig ["*"] 2 false).theDiff longGit [], ok (String.mk longLine)⟩] := rfl
      simp only at hev
      rw [h] at hev
      rcases List.mem_append.mp hev with h1 | h1
      · exact Or.inl h1
      · exact Or.inr (List.mem_singleton.mp h1)
    rcases hmem with h | h
    · have hall : ∀ ev ∈ (testConfig ["*"] 2 false).afterRev2 longGit [],
          (ev.call.isRevParse = true ∨ ev.call.isPull = true ∨ ev.call.isDiff = true →
            ev.result.err = none) ∧
          (ev.call.isDiff = true →
            ∀ l ∈ rawLines ev.result.out.data,
              MatchesPath ["*"] (String.mk (dropCR l)) = true) := by
        decide
      exact hall ev h
    · subst h
      refine ⟨fun _ => rfl, fun _ l hl => ?_⟩
      have hl2 : l ∈ rawLines longLine := hl
      rw [longLine_lines] at hl2
      rw [List.mem_singleton.mp hl2]
      exact longLine_star
  · rw [hrun]
  · rw [hrun]
    intro h
    cases h
  · rw [hrun]
    intro h
    cases h

end GitPushup
